import Mathlib

/-!
Verification of the `yuusim` parameter-sweep harness against its design
specification.  The Python sources under `src/yuusim/` are shallowly embedded
below: pure numeric helpers become Lean functions over a linear ordered field
(floating point is modelled by exact arithmetic), Python `dict` objects become
association lists (`List (String × _)`) preserving insertion order, raising an
exception becomes returning `Except.error`, and filesystem state is passed
explicitly.  `numpy` calls are embedded by their documented semantics with the
exact argument expressions the source passes to them.
-/

namespace Yuusim

/-- One raw per-parameter specification dictionary, as read from the
`[parameters]` section of a configuration file.  The Python code accesses the
keys `start`, `end`, `steps` with `config[...]` (a missing key raises
`KeyError`) and `log_scale` with `config.get("log_scale", False)`.  A field
holds `none` when the corresponding key is absent.  `stop?` models the key
named `end` (a reserved word in Lean). -/
structure ParameterSpec (α : Type) where
  start? : Option α
  stop? : Option α
  steps? : Option Nat
  log_scale? : Option Bool

/-- Python dictionary subscript access `d[k]`: the value when the key is
present, a `KeyError` otherwise. -/
def dictGet {β : Type} (v : Option β) : Except String β :=
  match v with
  | some x => Except.ok x
  | none => Except.error "KeyError"

/-- `numpy.linspace(start, stop, num=num)` with the default `endpoint=True`:
`num` evenly spaced samples over `[start, stop]`, a single-point `[start]`
when `num == 1`, empty when `num == 0`. -/
def linspace {α : Type} [Field α] (start stop : α) (num : Nat) : List α :=
  if num = 1 then [start]
  else (List.range num).map (fun (i : Nat) => start + (stop - start) / ((num : α) - 1) * (i : α))

/-- `numpy.logspace(start, stop, num=num, base=base)`, that is
`base ** linspace(start, stop, num)`.  Exponentiation is supplied as `pw`
so the definition stays polymorphic in the carrier. -/
def logspace {α : Type} [Field α] (pw : α → α → α) (start stop : α) (num : Nat) (base : α) :
    List α :=
  (linspace start stop num).map (pw base)

/-- `generate_parameter_grid` (src/yuusim/simulation.py, lines 409-446): a dict
comprehension over `parameters`; for each entry, if `log_scale` (default
`False`) it builds `np.logspace(np.log10(config["start"]),
np.log10(config["end"]), num=config["steps"], base=base)` — note that the
source applies `np.log10` to both bounds regardless of `base` — otherwise
`np.linspace(config["start"], config["end"], num=config["steps"])`.
`log10` and `pw` abstract `np.log10` and `base ** _`; a `KeyError` raised by a
subscript aborts the whole comprehension. -/
def generate_parameter_grid {α : Type} [Field α] (log10 : α → α) (pw : α → α → α)
    (parameters : List (String × ParameterSpec α)) (base : α) :
    Except String (List (String × List α)) :=
  parameters.mapM (fun pc =>
    if (pc.2.log_scale?.getD false) = true then do
      let s ← dictGet pc.2.start?
      let e ← dictGet pc.2.stop?
      let n ← dictGet pc.2.steps?
      pure (pc.1, logspace pw (log10 s) (log10 e) n base)
    else do
      let s ← dictGet pc.2.start?
      let e ← dictGet pc.2.stop?
      let n ← dictGet pc.2.steps?
      pure (pc.1, linspace s e n))

section LinspaceLemmas

variable {α : Type} [LinearOrderedField α]

theorem linspace_length (s e : α) (n : Nat) : (linspace s e n).length = n := by
  unfold linspace
  split
  · simp [*]
  · rw [List.length_map, List.length_range]

theorem linspace_getElem? (s e : α) {n : Nat} (hn : n ≠ 1) (i : Nat) (hi : i < n) :
    (linspace s e n)[i]? = some (s + (e - s) / ((n : α) - 1) * (i : α)) := by
  unfold linspace
  rw [if_neg hn, List.getElem?_map, List.getElem?_range hi]
  rfl

theorem linspace_head (s e : α) {n : Nat} (hn : 1 ≤ n) : (linspace s e n).head? = some s := by
  rcases eq_or_ne n 1 with h1 | h1
  · subst h1; rfl
  · have h0 : 0 < n := hn
    have h := linspace_getElem? s e h1 0 h0
    rw [List.head?_eq_getElem?, h]
    norm_num

theorem linspace_getLast (s e : α) {n : Nat} (hn : 2 ≤ n) :
    (linspace s e n).getLast? = some e := by
  have hn1 : n ≠ 1 := by omega
  have hlen : (linspace s e n).length = n := linspace_length s e n
  have hidx : n - 1 < n := by omega
  have hval := linspace_getElem? s e hn1 (n - 1) hidx
  have hcast : ((n - 1 : Nat) : α) = (n : α) - 1 := by
    have h1 : (1 : Nat) ≤ n := by omega
    push_cast [h1]
    ring
  have hne : ((n : α) - 1) ≠ 0 := by
    have h2 : (2 : α) ≤ (n : α) := by exact_mod_cast hn
    nlinarith
  rw [List.getLast?_eq_getElem?, hlen, hval, hcast]
  congr 1
  field_simp

theorem linspace_pairwise_lt {s e : α} (h : s < e) (n : Nat) :
    (linspace s e n).Pairwise (· < ·) := by
  unfold linspace
  split
  · simp
  · rename_i hn1
    rcases Nat.eq_zero_or_pos n with h0 | h0
    · subst h0; simp
    · have hn2 : 2 ≤ n := by omega
      have hcast : (2 : α) ≤ (n : α) := by exact_mod_cast hn2
      have hd : 0 < (e - s) / ((n : α) - 1) := div_pos (by linarith) (by linarith)
      rw [List.pairwise_map]
      refine (List.pairwise_lt_range n).imp ?_
      intro a b hab
      have hc : (a : α) < (b : α) := by exact_mod_cast hab
      nlinarith

theorem linspace_pairwise_gt {s e : α} (h : e < s) (n : Nat) :
    (linspace s e n).Pairwise (fun a b => b < a) := by
  unfold linspace
  split
  · simp
  · rename_i hn1
    rcases Nat.eq_zero_or_pos n with h0 | h0
    · subst h0; simp
    · have hn2 : 2 ≤ n := by omega
      have hcast : (2 : α) ≤ (n : α) := by exact_mod_cast hn2
      have hd : (e - s) / ((n : α) - 1) < 0 := div_neg_of_neg_of_pos (by linarith) (by linarith)
      rw [List.pairwise_map]
      refine (List.pairwise_lt_range n).imp ?_
      intro a b hab
      have hc : (a : α) < (b : α) := by exact_mod_cast hab
      nlinarith

/-- Consecutive values of `linspace` differ by the constant step
`(e - s) / (n - 1)`: the sequence is evenly spaced. -/
theorem linspace_gap {s e : α} {n : Nat} (hn1 : n ≠ 1) {i : Nat} {a b : α}
    (ha : (linspace s e n)[i]? = some a) (hb : (linspace s e n)[i + 1]? = some b) :
    b - a = (e - s) / ((n : α) - 1) := by
  by_cases hi : i + 1 < n
  · have hia : i < n := by omega
    rw [linspace_getElem? s e hn1 i hia] at ha
    rw [linspace_getElem? s e hn1 (i + 1) hi] at hb
    have ha2 := Option.some_injective _ ha
    have hb2 := Option.some_injective _ hb
    subst ha2; subst hb2
    push_cast
    ring
  · rw [List.getElem?_eq_none (by rw [linspace_length]; omega)] at hb
    cases hb

end LinspaceLemmas

section GridTheorems

/-- Shorthand for a fully populated raw parameter-spec dictionary
(all four keys present). -/
def fullSpec {α : Type} (s e : α) (n : Nat) (ls : Bool) : ParameterSpec α :=
  ⟨some s, some e, some n, some ls⟩

/-- C1 (amended: the endpoint and log-spacing properties hold for the default
`base = 10`; with any other base the source applies `np.log10` to the bounds
but re-exponentiates with `base`, so the endpoints are `base ^ log10(start)`
and `base ^ log10(end)` rather than `start` and `end`; and the last value
equals `end` only when `steps ≥ 2`, since `steps = 1` yields `[start]`).
For every parameter spec with `steps = n ≥ 1`, `generate_parameter_grid` at
base 10 produces a sequence of exactly `n` values, first value `start`, last
value `end` when `n ≥ 2`, strictly monotonic when `start ≠ end`, evenly
spaced (in log-space for the log branch, re-exponentiated). -/
theorem C1_grid_base10 (name : String) (s e : ℝ) (n : Nat) (ls : Bool)
    (hn : 1 ≤ n) (hpos : ls = true → 0 < s ∧ 0 < e) :
    ∃ vals : List ℝ,
      generate_parameter_grid (Real.logb 10) Real.rpow [(name, fullSpec s e n ls)] 10
        = Except.ok [(name, vals)] ∧
      vals.length = n ∧
      vals.head? = some s ∧
      (2 ≤ n → vals.getLast? = some e) ∧
      (s < e → vals.Pairwise (· < ·)) ∧
      (e < s → vals.Pairwise (fun a b => b < a)) ∧
      (ls = false → ∀ i a b, vals[i]? = some a → vals[i + 1]? = some b →
        b - a = (e - s) / ((n : ℝ) - 1)) ∧
      (ls = true → ∀ i a b, vals[i]? = some a → vals[i + 1]? = some b →
        Real.logb 10 b - Real.logb 10 a
          = (Real.logb 10 e - Real.logb 10 s) / ((n : ℝ) - 1)) := by
  have h10 : (1 : ℝ) < 10 := by norm_num
  have h10p : (0 : ℝ) < 10 := by norm_num
  have h10n : (10 : ℝ) ≠ 1 := by norm_num
  cases ls
  · refine ⟨linspace s e n, by rfl, linspace_length s e n, linspace_head s e hn,
      fun h2 => linspace_getLast s e h2,
      fun h => linspace_pairwise_lt h n,
      fun h => linspace_pairwise_gt h n, ?_, ?_⟩
    · intro _ i a b ha hb
      rcases eq_or_ne n 1 with h1 | h1
      · subst h1
        rw [show (1 : Nat) = 0 + 1 from rfl] at hb
        by_cases hi : i = 0
        · subst hi; cases hb
        · rw [linspace, if_pos rfl] at ha
          rw [List.getElem?_eq_none (by simp; omega)] at ha
          cases ha
      · exact linspace_gap h1 ha hb
    · intro h; cases h
  · obtain ⟨hs, he⟩ := hpos rfl
    have hlogs : Real.rpow 10 (Real.logb 10 s) = s := Real.rpow_logb h10p h10n hs
    have hloge : Real.rpow 10 (Real.logb 10 e) = e := Real.rpow_logb h10p h10n he
    refine ⟨(linspace (Real.logb 10 s) (Real.logb 10 e) n).map (Real.rpow 10),
      by rfl, ?_, ?_, ?_, ?_, ?_, ?_, ?_⟩
    · rw [List.length_map, linspace_length]
    · rw [List.head?_map, linspace_head _ _ hn, Option.map_some', hlogs]
    · intro h2
      rw [List.getLast?_map, linspace_getLast _ _ h2, Option.map_some', hloge]
    · intro h
      have hlt : Real.logb 10 s < Real.logb 10 e := Real.logb_lt_logb h10 hs h
      rw [List.pairwise_map]
      exact (linspace_pairwise_lt hlt n).imp
        (fun hab => (Real.rpow_lt_rpow_left_iff h10).mpr hab)
    · intro h
      have hlt : Real.logb 10 e < Real.logb 10 s := Real.logb_lt_logb h10 he h
      rw [List.pairwise_map]
      exact (linspace_pairwise_gt hlt n).imp
        (fun hab => (Real.rpow_lt_rpow_left_iff h10).mpr hab)
    · intro h; cases h
    · intro _ i a b ha hb
      rcases eq_or_ne n 1 with h1 | h1
      · subst h1
        rw [linspace, if_pos rfl] at hb
        rw [List.getElem?_map] at hb
        rw [List.getElem?_eq_none (by simp)] at hb
        cases hb
      · rw [List.getElem?_map] at ha hb
        by_cases hi : i + 1 < n
        · have hia : i < n := by omega
          rw [linspace_getElem? _ _ h1 i hia] at ha
          rw [linspace_getElem? _ _ h1 (i + 1) hi] at hb
          simp only [Option.map_some'] at ha hb
          have ha2 := Option.some_injective _ ha
          have hb2 := Option.some_injective _ hb
          have key : ∀ x : ℝ, Real.logb 10 (Real.rpow 10 x) = x := fun x =>
            Real.logb_rpow h10p h10n
          rw [← ha2, ← hb2, key, key]
          push_cast
          ring
        · rw [List.getElem?_eq_none (by rw [linspace_length]; omega)] at hb
          cases hb

/-- Witness for C1: the amended theorem applied at the concrete spec
`{start = 1, end = 100, steps = 3, log_scale = true}` with base 10. -/
theorem C1_grid_base10_witness :
    (1 ≤ 3 ∧ ((true : Bool) = true → (0 : ℝ) < 1 ∧ (0 : ℝ) < 100)) ∧
    (∃ vals : List ℝ,
      generate_parameter_grid (Real.logb 10) Real.rpow
        [("temperature", fullSpec (1 : ℝ) 100 3 true)] 10
        = Except.ok [("temperature", vals)] ∧
      vals.length = 3 ∧
      vals.head? = some 1 ∧
      (2 ≤ 3 → vals.getLast? = some 100) ∧
      ((1 : ℝ) < 100 → vals.Pairwise (· < ·)) ∧
      ((100 : ℝ) < 1 → vals.Pairwise (fun a b => b < a)) ∧
      ((true : Bool) = false → ∀ i a b, vals[i]? = some a → vals[i + 1]? = some b →
        b - a = ((100 : ℝ) - 1) / ((3 : ℝ) - 1)) ∧
      ((true : Bool) = true → ∀ i a b, vals[i]? = some a → vals[i + 1]? = some b →
        Real.logb 10 b - Real.logb 10 a
          = (Real.logb 10 100 - Real.logb 10 1) / ((3 : ℝ) - 1))) := by
  refine ⟨⟨by norm_num, fun _ => by norm_num⟩, ?_⟩
  have h := C1_grid_base10 "temperature" (1 : ℝ) 100 3 true (by norm_num)
    (fun _ => by norm_num)
  simpa using h

/-- Counterexample to C1 as stated: with `base = 2`, the first generated value
for `{start = 100, end = 10000, steps = 2, log_scale = true}` is
`2 ^ log10(100) = 4`, not `start = 100`; and with `steps = 1` on the linear
branch `{start = 0, end = 1}` the last value is `0`, not `end = 1`. -/
theorem C1_counterexample :
    (∃ vals : List ℝ,
      generate_parameter_grid (Real.logb 10) Real.rpow
        [("p", fullSpec (100 : ℝ) 10000 2 true)] 2
        = Except.ok [("p", vals)] ∧ vals.head? = some 4 ∧ ((4 : ℝ) ≠ 100)) ∧
    (∃ vals : List ℝ,
      generate_parameter_grid (Real.logb 10) Real.rpow
        [("q", fullSpec (0 : ℝ) 1 1 false)] 10
        = Except.ok [("q", vals)] ∧ vals.getLast? = some 0 ∧ ((0 : ℝ) ≠ 1)) := by
  constructor
  · refine ⟨(linspace (Real.logb 10 100) (Real.logb 10 10000) 2).map (Real.rpow 2),
      by rfl, ?_, by norm_num⟩
    have hl : Real.logb 10 (100 : ℝ) = 2 := by
      have h : (100 : ℝ) = (10 : ℝ) ^ ((2 : Nat) : ℝ) := by
        rw [Real.rpow_natCast]; norm_num
      rw [h, Real.logb_rpow (by norm_num) (by norm_num)]
      norm_num
    have h4 : (2 : ℝ) ^ (2 : ℝ) = 4 := by
      rw [show (2 : ℝ) = ((2 : Nat) : ℝ) from by norm_num, Real.rpow_natCast]
      push_cast
      norm_num
    rw [List.head?_map, linspace_head _ _ (by norm_num), Option.map_some', hl]
    show some ((2 : ℝ) ^ (2 : ℝ)) = some 4
    rw [h4]
  · exact ⟨[0], by rfl, by rfl, by norm_num⟩

/-- C6: the source performs no positivity validation on the log-scale branch.
With all four keys present, `generate_parameter_grid` returns normally (`ok`)
even when `start ≤ 0` — `np.log10` of a non-positive float only emits a
runtime warning and yields `nan`/`-inf`, it does not raise — contradicting
the spec's demand for a `ConfigurationError`. -/
theorem C6_no_validation (name : String) (s e : ℝ) (n : Nat) (base : ℝ)
    (hs : s ≤ 0) :
    (generate_parameter_grid (Real.logb 10) Real.rpow
      [(name, fullSpec s e n true)] base).isOk = true := by
  rfl

/-- Witness for C6: the failing input `{start = -1, end = 10, steps = 3,
log_scale = true}` is accepted without error. -/
theorem C6_no_validation_witness :
    (-1 : ℝ) ≤ 0 ∧
    (generate_parameter_grid (Real.logb 10) Real.rpow
      [("p", fullSpec (-1 : ℝ) 10 3 true)] 10).isOk = true :=
  ⟨by norm_num, C6_no_validation "p" (-1) 10 3 10 (by norm_num)⟩

/-- C8 (amended: the single-point result `[start]` holds for the linear branch
with any base and for the log branch at the default `base = 10`; with another
base the log branch yields `[base ^ log10(start)]`).  `steps = 1` degenerates
to `[start]`; the model's `linspace` takes the `num = 1` branch, which
involves no division. -/
theorem C8_steps_one (name : String) (s e : ℝ) (ls : Bool)
    (hpos : ls = true → 0 < s) :
    generate_parameter_grid (Real.logb 10) Real.rpow [(name, fullSpec s e 1 ls)] 10
      = Except.ok [(name, [s])] := by
  cases ls
  · rfl
  · have hs := hpos rfl
    have h : Real.rpow 10 (Real.logb 10 s) = s :=
      Real.rpow_logb (by norm_num) (by norm_num) hs
    show Except.ok [(name, (linspace (Real.logb 10 s) (Real.logb 10 e) 1).map (Real.rpow 10))]
      = Except.ok [(name, [s])]
    rw [show linspace (Real.logb 10 s) (Real.logb 10 e) 1 = [Real.logb 10 s] from rfl]
    rw [List.map_singleton, h]

/-- Witness for C8: the amended theorem applied at
`{start = 5, end = 9, steps = 1, log_scale = true}` with base 10. -/
theorem C8_steps_one_witness :
    ((true : Bool) = true → (0 : ℝ) < 5) ∧
    generate_parameter_grid (Real.logb 10) Real.rpow [("p", fullSpec (5 : ℝ) 9 1 true)] 10
      = Except.ok [("p", [(5 : ℝ)])] :=
  ⟨fun _ => by norm_num, C8_steps_one "p" 5 9 true (fun _ => by norm_num)⟩

/-- Counterexample to C8 as stated: with `base = 2` and
`{start = 100, end = 1000, steps = 1, log_scale = true}` the produced
sequence is `[2 ^ log10(100)] = [4]`, not `[start] = [100]`. -/
theorem C8_counterexample :
    generate_parameter_grid (Real.logb 10) Real.rpow
      [("p", fullSpec (100 : ℝ) 1000 1 true)] 2
      = Except.ok [("p", [(4 : ℝ)])] ∧ ((4 : ℝ) ≠ 100) := by
  constructor
  · show Except.ok [("p", (linspace (Real.logb 10 100) (Real.logb 10 1000) 1).map (Real.rpow 2))]
      = Except.ok [("p", [(4 : ℝ)])]
    have hl : Real.logb 10 (100 : ℝ) = 2 := by
      have h : (100 : ℝ) = (10 : ℝ) ^ ((2 : Nat) : ℝ) := by
        rw [Real.rpow_natCast]; norm_num
      rw [h, Real.logb_rpow (by norm_num) (by norm_num)]
      norm_num
    have h4 : (2 : ℝ) ^ (2 : ℝ) = 4 := by
      rw [show (2 : ℝ) = ((2 : Nat) : ℝ) from by norm_num, Real.rpow_natCast]
      push_cast
      norm_num
    rw [show linspace (Real.logb 10 100) (Real.logb 10 1000) 1 = [Real.logb 10 100] from rfl]
    rw [List.map_singleton, hl]
    show Except.ok [("p", [(2 : ℝ) ^ (2 : ℝ)])] = _
    rw [h4]
  · norm_num

end GridTheorems

/-! ### Parameter-set expansion (`_generate_parameter_sets`) -/

/-- `itertools.product(*lists)`: all combinations picking one element from
each list, in lexicographic order with the rightmost axis varying fastest. -/
def itproduct {α : Type} : List (List α) → List (List α)
  | [] => [[]]
  | xs :: rest => xs.flatMap (fun x => (itproduct rest).map (fun combo => x :: combo))

/-- Python dict item assignment `d[k] = v`: an existing key is updated in
place (insertion order kept), a new key is appended at the end. -/
def dictInsert {α : Type} (m : List (String × α)) (k : String) (v : α) :
    List (String × α) :=
  if m.any (fun p => p.1 = k) then m.map (fun p => if p.1 = k then (k, v) else p)
  else m ++ [(k, v)]

/-- Python dict subscript read `d[k]` as a partial function (first — and for a
genuine dict, only — binding of the key). -/
def dictLookup {α : Type} (m : List (String × α)) (k : String) : Option α :=
  match m with
  | [] => none
  | p :: rest => if p.1 = k then some p.2 else dictLookup rest k

/-- The loaded configuration as consumed by `_generate_parameter_sets`:
the mandatory `system` table and the optional `parameters` table
(`self.config["parameters"]` raises `KeyError` when absent). -/
structure Config (α : Type) where
  system : List (String × α)
  parameters? : Option (List (String × ParameterSpec α))

/-- The inner loop of `_generate_parameter_sets`:
`param_set = {**system_config}` followed by `param_set[name] = value` for each
`(name, value)` in `zip(param_names, values)`. -/
def overlay {α : Type} (system : List (String × α)) (names : List String)
    (values : List α) : List (String × α) :=
  (names.zip values).foldl (fun m nv => dictInsert m nv.1 nv.2) system

/-- `_generate_parameter_sets` (src/yuusim/simulation.py, lines 297-313):
build the grid (a `KeyError` — missing `parameters` key or missing spec key —
is caught and yields the single base `system` configuration), then one
parameter set per element of `itertools.product(*param_grid.values())`. -/
def generate_parameter_sets {α : Type} [Field α] (log10 : α → α) (pw : α → α → α)
    (config : Config α) (base : α) : List (List (String × α)) :=
  match config.parameters? with
  | none => [config.system]
  | some params =>
    match generate_parameter_grid log10 pw params base with
    | Except.error _ => [config.system]
    | Except.ok param_grid =>
      (itproduct (param_grid.map Prod.snd)).map
        (fun values => overlay config.system (param_grid.map Prod.fst) values)

/-- The combination the Cartesian product places at index `i`: mixed-radix
decomposition of `i`, rightmost axis fastest. -/
def comboAt {α : Type} (dflt : α) : List (List α) → Nat → List α
  | [], _ => []
  | xs :: rest, i =>
    xs.getD (i / (rest.map List.length).prod) dflt ::
      comboAt dflt rest (i % (rest.map List.length).prod)

section ProductLemmas

variable {α : Type}

theorem itproduct_length (ls : List (List α)) :
    (itproduct ls).length = (ls.map List.length).prod := by
  induction ls with
  | nil => rfl
  | cons xs rest ih =>
    show (xs.flatMap fun x => (itproduct rest).map (x :: ·)).length = _
    rw [List.length_flatMap]
    simp only [Function.comp_def, List.length_map, ih, List.map_const', List.sum_replicate,
      smul_eq_mul, List.map_cons, List.prod_cons]

theorem mem_itproduct (ls : List (List α)) (combo : List α) :
    combo ∈ itproduct ls ↔ List.Forall₂ (fun v ax => v ∈ ax) combo ls := by
  induction ls generalizing combo with
  | nil =>
    show combo ∈ [[]] ↔ _
    constructor
    · intro h
      rw [List.mem_singleton] at h
      subst h
      exact List.Forall₂.nil
    · intro h
      cases h
      exact List.mem_singleton.mpr rfl
  | cons xs rest ih =>
    show combo ∈ xs.flatMap (fun x => (itproduct rest).map (x :: ·)) ↔ _
    rw [List.mem_flatMap]
    constructor
    · rintro ⟨x, hx, hc⟩
      rw [List.mem_map] at hc
      obtain ⟨tail, htail, rfl⟩ := hc
      exact List.Forall₂.cons hx ((ih tail).mp htail)
    · intro h
      cases h with
      | cons hx htail => exact ⟨_, hx, List.mem_map.mpr ⟨_, (ih _).mpr htail, rfl⟩⟩

theorem itproduct_nodup (ls : List (List α)) (h : ∀ ax ∈ ls, ax.Nodup) :
    (itproduct ls).Nodup := by
  induction ls with
  | nil => exact List.nodup_singleton _
  | cons xs rest ih =>
    show (xs.flatMap fun x => (itproduct rest).map (x :: ·)).Nodup
    rw [List.nodup_flatMap]
    refine ⟨?_, ?_⟩
    · intro x _
      exact (ih (fun ax hax => h ax (List.mem_cons_of_mem _ hax))).map
        (fun a b hab => by injection hab)
    · have hx : xs.Nodup := h xs (List.mem_cons_self _ _)
      refine hx.imp ?_
      intro a b hab
      intro z hza hzb
      rw [List.mem_map] at hza hzb
      obtain ⟨ta, _, rfl⟩ := hza
      obtain ⟨tb, _, hzb⟩ := hzb
      exact hab (by injection hzb with h1 _; exact h1.symm)

theorem flatMap_getElem?_const {β : Type} (dflt : α) {f : α → List β} {L : Nat}
    (hf : ∀ x, (f x).length = L) :
    ∀ (xs : List α) (i : Nat), i < xs.length * L →
      (xs.flatMap f)[i]? = (f (xs.getD (i / L) dflt))[i % L]? := by
  intro xs
  induction xs with
  | nil =>
    intro i hi
    rw [List.length_nil, Nat.zero_mul] at hi
    omega
  | cons x xs ih =>
    intro i hi
    have hL : 0 < L := by
      rcases Nat.eq_zero_or_pos L with h0 | h0
      · rw [h0, Nat.mul_zero] at hi; omega
      · exact h0
    rw [List.flatMap_cons]
    by_cases hiL : i < L
    · rw [List.getElem?_append, if_pos (by rw [hf]; exact hiL)]
      rw [Nat.div_eq_of_lt hiL, Nat.mod_eq_of_lt hiL]
      rfl
    · push_neg at hiL
      obtain ⟨j, rfl⟩ : ∃ j, i = j + L := ⟨i - L, by omega⟩
      rw [List.getElem?_append, if_neg (by rw [hf]; omega), hf]
      have hdiv : (j + L) / L = j / L + 1 := Nat.add_div_right j hL
      have hmod : (j + L) % L = j % L := Nat.add_mod_right j L
      rw [hdiv, hmod]
      have hj : j < xs.length * L := by
        rw [List.length_cons, Nat.succ_mul] at hi
        omega
      rw [show j + L - L = j from by omega]
      exact ih j hj

theorem itproduct_getElem? (dflt : α) :
    ∀ (ls : List (List α)) (i : Nat), i < (ls.map List.length).prod →
      (itproduct ls)[i]? = some (comboAt dflt ls i) := by
  intro ls
  induction ls with
  | nil =>
    intro i hi
    simp only [List.map_nil, List.prod_nil] at hi
    interval_cases i
    rfl
  | cons xs rest ih =>
    intro i hi
    rw [List.map_cons, List.prod_cons] at hi
    have hPpos : 0 < (rest.map List.length).prod := by
      rcases Nat.eq_zero_or_pos (rest.map List.length).prod with h0 | h0
      · rw [h0, Nat.mul_zero] at hi; omega
      · exact h0
    have hlen : ∀ x : α, ((itproduct rest).map (x :: ·)).length
        = (rest.map List.length).prod := fun x => by
      rw [List.length_map, itproduct_length]
    show (xs.flatMap fun x => (itproduct rest).map (x :: ·))[i]? = _
    rw [flatMap_getElem?_const dflt hlen xs i hi]
    rw [List.getElem?_map, ih _ (Nat.mod_lt i hPpos)]
    rfl

end ProductLemmas

section DictLemmas

variable {α : Type}

theorem lookup_map_update_self (m : List (String × α)) (k : String) (v : α)
    (h : (m.any fun p => p.1 = k) = true) :
    dictLookup (m.map fun p => if p.1 = k then (k, v) else p) k = some v := by
  induction m with
  | nil => simp at h
  | cons p rest ih =>
    rw [List.map_cons]
    by_cases hp : p.1 = k
    · rw [if_pos hp]
      unfold dictLookup
      rw [if_pos rfl]
    · rw [if_neg hp]
      unfold dictLookup
      rw [if_neg hp]
      apply ih
      rw [List.any_cons] at h
      simpa [hp] using h

theorem lookup_map_update_ne (m : List (String × α)) (k : String) (v : α)
    (k' : String) (h : k' ≠ k) :
    dictLookup (m.map fun p => if p.1 = k then (k, v) else p) k' = dictLookup m k' := by
  induction m with
  | nil => rfl
  | cons p rest ih =>
    rw [List.map_cons]
    by_cases hp : p.1 = k
    · rw [if_pos hp]
      unfold dictLookup
      rw [if_neg (fun hc => h hc.symm), if_neg (fun hc : p.1 = k' => h (hp ▸ hc).symm)]
      exact ih
    · rw [if_neg hp]
      unfold dictLookup
      by_cases hpk : p.1 = k'
      · rw [if_pos hpk, if_pos hpk]
      · rw [if_neg hpk, if_neg hpk]
        exact ih

theorem lookup_append_single_self (m : List (String × α)) (k : String) (v : α)
    (h : ¬(m.any fun p => p.1 = k) = true) :
    dictLookup (m ++ [(k, v)]) k = some v := by
  induction m with
  | nil =>
    show dictLookup [(k, v)] k = some v
    unfold dictLookup
    rw [if_pos rfl]
  | cons p rest ih =>
    rw [List.cons_append]
    unfold dictLookup
    have hp : p.1 ≠ k := by
      intro hc
      exact h (by rw [List.any_cons]; simp [hc])
    rw [if_neg hp]
    exact ih (fun hc => h (by rw [List.any_cons]; simp [hc]))

theorem lookup_append_single_ne (m : List (String × α)) (k : String) (v : α)
    (k' : String) (h : k' ≠ k) :
    dictLookup (m ++ [(k, v)]) k' = dictLookup m k' := by
  induction m with
  | nil =>
    show dictLookup [(k, v)] k' = none
    unfold dictLookup
    rw [if_neg (fun hc => h hc.symm)]
    rfl
  | cons p rest ih =>
    rw [List.cons_append]
    unfold dictLookup
    by_cases hpk : p.1 = k'
    · rw [if_pos hpk, if_pos hpk]
    · rw [if_neg hpk, if_neg hpk]
      exact ih

theorem dictLookup_insert_self (m : List (String × α)) (k : String) (v : α) :
    dictLookup (dictInsert m k v) k = some v := by
  unfold dictInsert
  split
  · exact lookup_map_update_self m k v (by assumption)
  · exact lookup_append_single_self m k v (by assumption)

theorem dictLookup_insert_ne (m : List (String × α)) (k : String) (v : α)
    (k' : String) (h : k' ≠ k) :
    dictLookup (dictInsert m k v) k' = dictLookup m k' := by
  unfold dictInsert
  split
  · exact lookup_map_update_ne m k v k' h
  · exact lookup_append_single_ne m k v k' h

theorem overlay_lookup_notin {sys : List (String × α)} {names : List String}
    {values : List α} {k : String} (h : k ∉ names) :
    dictLookup (overlay sys names values) k = dictLookup sys k := by
  induction names generalizing values sys with
  | nil => rfl
  | cons n ns ih =>
    cases values with
    | nil => rfl
    | cons v vs =>
      rw [List.mem_cons, not_or] at h
      show dictLookup (overlay (dictInsert sys n v) ns vs) k = _
      rw [ih h.2]
      exact dictLookup_insert_ne _ _ _ _ h.1

theorem overlay_lookup_swept {sys : List (String × α)} {names : List String}
    {values : List α} (hnodup : names.Nodup) (hlen : names.length = values.length)
    (j : Nat) (hj : j < names.length) :
    dictLookup (overlay sys names values) (names.getD j "") = values[j]? := by
  induction names generalizing values sys j with
  | nil => simp at hj
  | cons n ns ih =>
    cases values with
    | nil => simp at hlen
    | cons v vs =>
      show dictLookup (overlay (dictInsert sys n v) ns vs) ((n :: ns).getD j "")
        = (v :: vs)[j]?
      cases j with
      | zero =>
        have hn : n ∉ ns := (List.nodup_cons.mp hnodup).1
        rw [show (n :: ns).getD 0 "" = n from rfl]
        rw [overlay_lookup_notin hn, dictLookup_insert_self]
        simp
      | succ j' =>
        have hr : dictLookup (overlay (dictInsert sys n v) ns vs) (ns.getD j' "")
            = vs[j']? :=
          ih (List.nodup_cons.mp hnodup).2 (by simpa using hlen) j' (by simpa using hj)
        simpa [List.getD] using hr

end DictLemmas

/-- C2: with a present, well-formed `parameters` section (grid generation
succeeds), `_generate_parameter_sets` produces the full Cartesian product of
the per-parameter value sequences: the parameter-set list is the product list
mapped through the system-overlay; its length is the product of the axis
lengths; membership in the product is exactly picking one value per axis; with
duplicate-free axes every combination appears exactly once; the combination
at index `i` is the mixed-radix (rightmost-fastest, declaration-ordered)
decomposition of `i`; and each parameter set maps each declared parameter name
to its combination value and every other key to its `system` value. -/
theorem C2_cartesian_product {α : Type} [Field α] [DecidableEq α]
    (log10 : α → α) (pw : α → α → α)
    (sys : List (String × α)) (params : List (String × ParameterSpec α)) (base : α)
    (grid : List (String × List α))
    (hgrid : generate_parameter_grid log10 pw params base = Except.ok grid) :
    generate_parameter_sets log10 pw ⟨sys, some params⟩ base
      = (itproduct (grid.map Prod.snd)).map (overlay sys (grid.map Prod.fst)) ∧
    (generate_parameter_sets log10 pw ⟨sys, some params⟩ base).length
      = ((grid.map Prod.snd).map List.length).prod ∧
    (∀ combo, combo ∈ itproduct (grid.map Prod.snd) ↔
      List.Forall₂ (fun v ax => v ∈ ax) combo (grid.map Prod.snd)) ∧
    ((∀ ax ∈ grid.map Prod.snd, ax.Nodup) → (itproduct (grid.map Prod.snd)).Nodup) ∧
    (∀ i, i < ((grid.map Prod.snd).map List.length).prod →
      (generate_parameter_sets log10 pw ⟨sys, some params⟩ base)[i]?
        = some (overlay sys (grid.map Prod.fst) (comboAt 0 (grid.map Prod.snd) i))) ∧
    (∀ values (j : Nat), (grid.map Prod.fst).Nodup →
      (grid.map Prod.fst).length = values.length → j < (grid.map Prod.fst).length →
      dictLookup (overlay sys (grid.map Prod.fst) values) ((grid.map Prod.fst).getD j "")
        = values[j]?) ∧
    (∀ values k, k ∉ grid.map Prod.fst →
      dictLookup (overlay sys (grid.map Prod.fst) values) k = dictLookup sys k) := by
  have h1 : generate_parameter_sets log10 pw ⟨sys, some params⟩ base
      = match generate_parameter_grid log10 pw params base with
        | Except.error _ => [sys]
        | Except.ok g => (itproduct (g.map Prod.snd)).map (overlay sys (g.map Prod.fst)) :=
    rfl
  have hsets : generate_parameter_sets log10 pw ⟨sys, some params⟩ base
      = (itproduct (grid.map Prod.snd)).map (overlay sys (grid.map Prod.fst)) := by
    rw [h1, hgrid]
  refine ⟨hsets, ?_, mem_itproduct _, ?_, ?_, ?_, ?_⟩
  · rw [hsets, List.length_map, itproduct_length]
  · intro hax
    exact itproduct_nodup _ hax
  · intro i hi
    rw [hsets, List.getElem?_map, itproduct_getElem? 0 _ i hi]
    rfl
  · intro values j hnodup hlen hj
    exact overlay_lookup_swept hnodup hlen j hj
  · intro values k hk
    exact overlay_lookup_notin hk

/-- Witness for C2: the two-axis configuration from the spec's testable
properties (`a`: 2 linear values, `b`: 3 linear values) yields exactly
2 x 3 = 6 parameter sets. -/
theorem C2_cartesian_product_witness :
    generate_parameter_grid (fun x : ℚ => x) (fun _ y : ℚ => y)
      [("a", fullSpec (0 : ℚ) 1 2 false), ("b", fullSpec (0 : ℚ) 2 3 false)] 10
      = Except.ok [("a", linspace (0 : ℚ) 1 2), ("b", linspace (0 : ℚ) 2 3)] ∧
    (generate_parameter_sets (fun x : ℚ => x) (fun _ y : ℚ => y)
      ⟨[("name", (7 : ℚ))],
        some [("a", fullSpec (0 : ℚ) 1 2 false), ("b", fullSpec (0 : ℚ) 2 3 false)]⟩
      10).length
      = (([("a", linspace (0 : ℚ) 1 2), ("b", linspace (0 : ℚ) 2 3)].map
          (Prod.snd (α := String))).map List.length).prod ∧
    (generate_parameter_sets (fun x : ℚ => x) (fun _ y : ℚ => y)
      ⟨[("name", (7 : ℚ))],
        some [("a", fullSpec (0 : ℚ) 1 2 false), ("b", fullSpec (0 : ℚ) 2 3 false)]⟩
      10).length = 6 := by
  refine ⟨by rfl, ?_, by rfl⟩
  exact (C2_cartesian_product (fun x : ℚ => x) (fun _ y : ℚ => y)
    [("name", (7 : ℚ))]
    [("a", fullSpec (0 : ℚ) 1 2 false), ("b", fullSpec (0 : ℚ) 2 3 false)] 10
    [("a", linspace (0 : ℚ) 1 2), ("b", linspace (0 : ℚ) 2 3)] (by rfl)).2.1


/-! ### Batched execution (`_execute_simulations`, `_execute_parallel`,
`_execute_sequential`) -/

/-- One batch executed in submission order, with the trace of inputs the user
function is actually invoked on: the first raised exception propagates
immediately and the remaining inputs of the batch are not invoked. -/
def mapM_trace {α β ε : Type} (f : α → Except ε β) : List α → Except ε (List β) × List α
  | [] => (Except.ok [], [])
  | p :: ps =>
    match f p with
    | Except.error e => (Except.error e, [p])
    | Except.ok b =>
      match mapM_trace f ps with
      | (Except.error e, tr) => (Except.error e, p :: tr)
      | (Except.ok bs, tr) => (Except.ok (b :: bs), p :: tr)

/-- The batch loop of `_execute_sequential` (src/yuusim/simulation.py, lines
260-267) over the given list of batch indices: batch `j` is the slice
`param_sets[j * batch_size : (j + 1) * batch_size]`; an exception aborts the
loop, later batches are not started.  Returns the outcome and the trace of
inputs passed to the user function. -/
def runBatches {α β ε : Type} (f : α → Except ε β) (ps : List α) (bs : Nat) :
    List Nat → Except ε (List β) × List α
  | [] => (Except.ok [], [])
  | j :: rest =>
    match mapM_trace f ((ps.drop (j * bs)).take bs) with
    | (Except.error e, tr) => (Except.error e, tr)
    | (Except.ok rs, tr) =>
      match runBatches f ps bs rest with
      | (Except.error e, tr2) => (Except.error e, tr ++ tr2)
      | (Except.ok rs2, tr2) => (Except.ok (rs ++ rs2), tr ++ tr2)

/-- `_execute_sequential`: `for i in range(0, len(param_sets), batch_size)`
runs the batch `param_sets[i : i + batch_size]` and extends `results`;
`range(0, n, bs)` has `ceil(n / bs)` steps. -/
def execute_sequential_exc {α β ε : Type} (f : α → Except ε β) (ps : List α) (bs : Nat) :
    Except ε (List β) × List α :=
  runBatches f ps bs (List.range ((ps.length + bs - 1) / bs))

/-- The batch loop of `_execute_parallel` (src/yuusim/simulation.py, lines
245-258): each batch is dispatched through `joblib.Parallel`, embedded by its
documented contract — outputs in submission order, the first exception
re-raised, later batches not submitted. -/
def parBatches {α β ε : Type} (f : α → Except ε β) (ps : List α) (bs : Nat) :
    List Nat → Except ε (List β)
  | [] => Except.ok []
  | j :: rest => do
    let rs ← ((ps.drop (j * bs)).take bs).mapM f
    let rs2 ← parBatches f ps bs rest
    pure (rs ++ rs2)

/-- `_execute_parallel`: the parallel batch loop over all batches. -/
def execute_parallel_exc {α β ε : Type} (f : α → Except ε β) (ps : List α) (bs : Nat) :
    Except ε (List β) :=
  parBatches f ps bs (List.range ((ps.length + bs - 1) / bs))

/-- `_execute_simulations` (src/yuusim/simulation.py, lines 236-243):
`batch_size = max(1, kwargs.get("batch_size", CPU_COUNT * 100))` clamped to
`len(param_sets)`, then the parallel path when more than one CPU is available,
the sequential path otherwise. -/
def execute_simulations_exc {α β ε : Type} (cpu : Nat) (f : α → Except ε β)
    (ps : List α) (batch_size? : Option Nat) : Except ε (List β) :=
  let bs := min (max 1 (batch_size?.getD (cpu * 100))) ps.length
  if cpu > 1 then execute_parallel_exc f ps bs
  else (execute_sequential_exc f ps bs).1

section ExecutionLemmas

variable {α β ε : Type}

theorem mapM_trace_append (f : α → Except ε β) (A B : List α) :
    mapM_trace f (A ++ B) =
      match mapM_trace f A with
      | (Except.error e, tr) => (Except.error e, tr)
      | (Except.ok rs, tr) =>
        match mapM_trace f B with
        | (Except.error e, tr2) => (Except.error e, tr ++ tr2)
        | (Except.ok rs2, tr2) => (Except.ok (rs ++ rs2), tr ++ tr2) := by
  induction A with
  | nil =>
    show mapM_trace f B = _
    rcases h : mapM_trace f B with ⟨r, tr⟩
    cases r <;> simp [mapM_trace]
  | cons p A ih =>
    rw [List.cons_append]
    simp only [mapM_trace]
    rcases hp : f p with e | b
    · rfl
    · rw [ih]
      rcases hA : mapM_trace f A with ⟨rA, trA⟩
      rcases hB : mapM_trace f B with ⟨rB, trB⟩
      cases rA <;> cases rB <;> simp

theorem mapM_trace_fst (f : α → Except ε β) (ps : List α) :
    (mapM_trace f ps).1 = ps.mapM f := by
  induction ps with
  | nil => rfl
  | cons p ps ih =>
    rw [List.mapM_cons]
    simp only [mapM_trace]
    rcases hp : f p with e | b
    · rfl
    · rcases hps : mapM_trace f ps with ⟨r, tr⟩
      rw [hps] at ih
      rw [← ih]
      cases r <;> rfl

theorem mapM_trace_ok (g : α → β) (ps : List α) :
    mapM_trace (fun a => (Except.ok (g a) : Except ε β)) ps = (Except.ok (ps.map g), ps) := by
  induction ps with
  | nil => rfl
  | cons p ps ih =>
    simp only [mapM_trace]
    rw [ih]
    rfl

theorem mapM_trace_error (f : α → Except ε β) (l₁ l₂ : List α) (x : α) (err : ε)
    (hok : ∀ a ∈ l₁, ∃ b, f a = Except.ok b) (hx : f x = Except.error err) :
    mapM_trace f (l₁ ++ x :: l₂) = (Except.error err, l₁ ++ [x]) := by
  induction l₁ with
  | nil =>
    simp only [List.nil_append, mapM_trace]
    rw [hx]
  | cons p l₁ ih =>
    obtain ⟨b, hb⟩ := hok p (List.mem_cons_self _ _)
    rw [List.cons_append]
    simp only [mapM_trace]
    rw [hb, ih (fun a ha => hok a (List.mem_cons_of_mem _ ha))]
    rfl

theorem runBatches_shift (f : α → Except ε β) (ps : List α) (bs : Nat) (js : List Nat) :
    runBatches f ps bs (js.map Nat.succ) = runBatches f (ps.drop bs) bs js := by
  induction js with
  | nil => rfl
  | cons j js ih =>
    rw [List.map_cons]
    simp only [runBatches]
    rw [ih]
    have hd : ps.drop (Nat.succ j * bs) = (ps.drop bs).drop (j * bs) := by
      rw [List.drop_drop]
      congr 1
      rw [Nat.succ_mul]
      omega
    rw [hd]

theorem exec_seq_eq_mapM_trace (f : α → Except ε β) (bs : Nat) (hbs : 1 ≤ bs) :
    ∀ (k : Nat) (ps : List α), (ps.length + bs - 1) / bs = k →
      execute_sequential_exc f ps bs = mapM_trace f ps := by
  intro k
  induction k with
  | zero =>
    intro ps hk
    have hlen : ps.length = 0 := by
      by_contra h0
      have h1 : 1 ≤ ps.length := Nat.one_le_iff_ne_zero.mpr h0
      have h2 : 1 ≤ (ps.length + bs - 1) / bs := (Nat.one_le_div_iff hbs).mpr (by omega)
      omega
    obtain rfl : ps = [] := List.eq_nil_of_length_eq_zero hlen
    unfold execute_sequential_exc
    rw [hk]
    rfl
  | succ k ih =>
    intro ps hk
    have hlen1 : 1 ≤ ps.length := by
      by_contra h0
      push_neg at h0
      have h00 : ps.length = 0 := by omega
      rw [h00, Nat.zero_add, Nat.div_eq_of_lt (by omega)] at hk
      omega
    have hk' : (ps.length - 1) / bs = k := by
      have h2 : ps.length + bs - 1 = (ps.length - 1) + bs := by omega
      rw [h2, Nat.add_div_right _ hbs] at hk
      omega
    have hnext : ((ps.drop bs).length + bs - 1) / bs = k := by
      rw [List.length_drop]
      by_cases hc : ps.length ≤ bs
      · have h3 : ps.length - bs = 0 := by omega
        rw [h3, Nat.zero_add, Nat.div_eq_of_lt (by omega)]
        rw [Nat.div_eq_of_lt (by omega)] at hk'
        omega
      · push_neg at hc
        have h4 : ps.length - bs + bs - 1 = (ps.length - bs - 1) + bs := by omega
        rw [h4, Nat.add_div_right _ hbs]
        have h5 : ps.length - 1 = (ps.length - bs - 1) + bs := by omega
        rw [h5, Nat.add_div_right _ hbs] at hk'
        omega
    unfold execute_sequential_exc
    rw [hk, List.range_succ_eq_map]
    simp only [runBatches]
    rw [runBatches_shift]
    have hrec : runBatches f (ps.drop bs) bs (List.range k) = mapM_trace f (ps.drop bs) := by
      have h6 := ih (ps.drop bs) hnext
      unfold execute_sequential_exc at h6
      rw [hnext] at h6
      exact h6
    rw [hrec, Nat.zero_mul, List.drop_zero]
    have happ := mapM_trace_append f (ps.take bs) (ps.drop bs)
    rw [List.take_append_drop] at happ
    rw [happ]

theorem parBatches_eq_runBatches (f : α → Except ε β) (ps : List α) (bs : Nat)
    (js : List Nat) :
    parBatches f ps bs js = (runBatches f ps bs js).1 := by
  induction js with
  | nil => rfl
  | cons j js ih =>
    simp only [parBatches, runBatches]
    rw [← mapM_trace_fst f ((ps.drop (j * bs)).take bs)]
    rcases hslice : mapM_trace f ((ps.drop (j * bs)).take bs) with ⟨r, tr⟩
    cases r with
    | error e => rfl
    | ok rs =>
      show (parBatches f ps bs js >>= fun rs2 => pure (rs ++ rs2)) = _
      rw [ih]
      rcases hrest : runBatches f ps bs js with ⟨r2, tr2⟩
      cases r2 <;> rfl

theorem exec_par_eq_seq (f : α → Except ε β) (ps : List α) (bs : Nat) :
    execute_parallel_exc f ps bs = (execute_sequential_exc f ps bs).1 := by
  unfold execute_parallel_exc execute_sequential_exc
  exact parBatches_eq_runBatches f ps bs _

end ExecutionLemmas

/-! ### The skip guard and the `run` state machine -/

/-- `pat` is a prefix of `s` (character lists). -/
def listStartsWith : List Char → List Char → Bool
  | _, [] => true
  | [], _ :: _ => false
  | c :: s, p :: ps => (c == p) && listStartsWith s ps

/-- `pat` occurs as a contiguous substring of `s` (character lists),
Python's `pat in s`. -/
def listHasSub : List Char → List Char → Bool
  | [], pat => listStartsWith [] pat
  | c :: t, pat => listStartsWith (c :: t) pat || listHasSub t pat

/-- Python's `pat in s` on strings. -/
def strContains (s pat : String) : Bool :=
  listHasSub s.data pat.data

/-- `_check_existing_data` (src/yuusim/simulation.py, lines 315-324): true iff
some filename in the data directory contains the parameter hash as a
substring; a missing directory gives the empty listing. -/
def check_existing_data (dataFiles : List String) (param_hash : String) : Bool :=
  dataFiles.any fun file => strContains file param_hash

/-- Outcome of one `run` call: the idempotence skip, a crash on an empty
parameter-set list (`param_sets[0]` raises `IndexError` or `range(0, 0, 0)`
raises `ValueError`), a propagated user-function exception, or completion
with the results and the name stem `<timestamp>_<hash>` of the persisted
artifacts. -/
inductive RunOutcome (β ε : Type) where
  | skipped
  | crashed
  | failed (e : ε)
  | completed (results : List β) (artifact : String)

/-- `run` (src/yuusim/simulation.py, lines 159-190): skip when `not force` and
data with the hash exists; generate parameter sets; when `opt`, estimate
performance by invoking the user function on `param_sets[0]` once under
memory profiling and once under time profiling (`_analyze_single_run_performance`);
execute all simulations; persist results and configuration under
`<timestamp>_<hash>`.  Exceptions propagate; nothing is persisted unless
execution completes. -/
def run {α β ε : Type} [Field α] (log10 : α → α) (pw : α → α → α)
    (config : Config α) (param_hash timestamp : String) (dataFiles : List String)
    (func : List (String × α) → Except ε β) (force opt : Bool) (base : α)
    (cpu : Nat) (batch_size? : Option Nat) : RunOutcome β ε :=
  if force = false ∧ check_existing_data dataFiles param_hash = true then
    RunOutcome.skipped
  else
    match generate_parameter_sets log10 pw config base with
    | [] => RunOutcome.crashed
    | sample :: rest =>
      match (if opt = true then
          func sample >>= fun _ => func sample >>= fun _ => Except.ok ()
        else Except.ok ()) with
      | Except.error e => RunOutcome.failed e
      | Except.ok _ =>
        match execute_simulations_exc cpu func (sample :: rest) batch_size? with
        | Except.error e => RunOutcome.failed e
        | Except.ok results =>
          RunOutcome.completed results (timestamp ++ "_" ++ param_hash)

section RunLemmas

variable {α β ε : Type}

theorem listStartsWith_iff (p s : List Char) :
    listStartsWith s p = true ↔ ∃ r, s = p ++ r := by
  induction p generalizing s with
  | nil =>
    cases s <;> simp [listStartsWith]
  | cons c p ih =>
    cases s with
    | nil => simp [listStartsWith]
    | cons d t =>
      simp only [listStartsWith, Bool.and_eq_true, beq_iff_eq, ih, List.cons_append,
        List.cons.injEq]
      constructor
      · rintro ⟨rfl, r, rfl⟩
        exact ⟨r, rfl, rfl⟩
      · rintro ⟨r, rfl, rfl⟩
        exact ⟨rfl, r, rfl⟩

theorem listHasSub_iff (s p : List Char) :
    listHasSub s p = true ↔ ∃ l r, s = l ++ p ++ r := by
  induction s with
  | nil =>
    show listStartsWith [] p = true ↔ _
    rw [listStartsWith_iff]
    constructor
    · rintro ⟨r, hr⟩
      exact ⟨[], r, hr⟩
    · rintro ⟨l, r, hr⟩
      rcases l with _ | ⟨c, l⟩
      · exact ⟨r, hr⟩
      · cases hr
  | cons c t ih =>
    show (listStartsWith (c :: t) p || listHasSub t p) = true ↔ _
    rw [Bool.or_eq_true, listStartsWith_iff, ih]
    constructor
    · rintro (⟨r, hr⟩ | ⟨l, r, hr⟩)
      · exact ⟨[], r, by simpa using hr⟩
      · exact ⟨c :: l, r, by simp [hr]⟩
    · rintro ⟨l, r, hr⟩
      rcases l with _ | ⟨d, l⟩
      · exact Or.inl ⟨r, by simpa using hr⟩
      · simp only [List.cons_append] at hr
        injection hr with h1 h2
        exact Or.inr ⟨l, r, h2⟩

theorem check_existing_data_iff (dataFiles : List String) (param_hash : String) :
    check_existing_data dataFiles param_hash = true ↔
      ∃ file ∈ dataFiles, ∃ l r, file.data = l ++ param_hash.data ++ r := by
  unfold check_existing_data
  rw [List.any_eq_true]
  constructor
  · rintro ⟨file, hf, hc⟩
    exact ⟨file, hf, (listHasSub_iff _ _).mp hc⟩
  · rintro ⟨file, hf, hsub⟩
    exact ⟨file, hf, (listHasSub_iff _ _).mpr hsub⟩

/-- Any execution entry point reduces to the traced batch executor: the clamped
batch size is at least 1 on a non-empty input, and both CPU paths compute the
outcome of `mapM_trace`. -/
theorem exec_sims_eq_mapM_trace (cpu : Nat) (f : List (String × α) → Except ε β)
    (ps : List (List (String × α))) (batch_size? : Option Nat) (hne : ps ≠ []) :
    execute_simulations_exc cpu f ps batch_size? = (mapM_trace f ps).1 := by
  have hlen : 1 ≤ ps.length := by
    cases ps with
    | nil => exact absurd rfl hne
    | cons a l => simp
  have hbs : 1 ≤ min (max 1 (batch_size?.getD (cpu * 100))) ps.length :=
    le_min (le_max_left _ _) hlen
  unfold execute_simulations_exc
  split
  · show execute_parallel_exc f ps (min (max 1 (batch_size?.getD (cpu * 100))) ps.length)
      = (mapM_trace f ps).1
    rw [exec_par_eq_seq, exec_seq_eq_mapM_trace f _ hbs
      ((ps.length + min (max 1 (batch_size?.getD (cpu * 100))) ps.length - 1)
        / min (max 1 (batch_size?.getD (cpu * 100))) ps.length) ps rfl]
  · show (execute_sequential_exc f ps
        (min (max 1 (batch_size?.getD (cpu * 100))) ps.length)).1
      = (mapM_trace f ps).1
    rw [exec_seq_eq_mapM_trace f _ hbs
      ((ps.length + min (max 1 (batch_size?.getD (cpu * 100))) ps.length - 1)
        / min (max 1 (batch_size?.getD (cpu * 100))) ps.length) ps rfl]

end RunLemmas

/-- C3: for a user function that returns normally on every input (embedded as
an always-`ok` fallible function) and a non-empty ordered parameter-set list,
the sequential path, the parallel path, and the dispatching wrapper all return
exactly the input-ordered map of the function over the parameter sets — one
result per input, `result[i]` from `param_sets[i]`, batches concatenated in
submission order — for every batch size. -/
theorem C3_execution_order {α β ε : Type} (g : List (String × α) → β)
    (ps : List (List (String × α))) (hne : ps ≠ []) :
    (∀ bs, 1 ≤ bs →
      execute_sequential_exc (fun a => (Except.ok (g a) : Except ε β)) ps bs
        = (Except.ok (ps.map g), ps)) ∧
    (∀ bs, 1 ≤ bs →
      execute_parallel_exc (fun a => (Except.ok (g a) : Except ε β)) ps bs
        = Except.ok (ps.map g)) ∧
    (∀ cpu batch_size?,
      execute_simulations_exc cpu (fun a => (Except.ok (g a) : Except ε β)) ps batch_size?
        = Except.ok (ps.map g)) ∧
    (∀ cpu batch_size?, ∃ rs,
      execute_simulations_exc cpu (fun a => (Except.ok (g a) : Except ε β)) ps batch_size?
        = Except.ok rs ∧ rs.length = ps.length ∧ ∀ i : Nat, rs[i]? = ps[i]?.map g) := by
  have hseq : ∀ bs, 1 ≤ bs →
      execute_sequential_exc (fun a => (Except.ok (g a) : Except ε β)) ps bs
        = (Except.ok (ps.map g), ps) := by
    intro bs hbs
    rw [exec_seq_eq_mapM_trace _ bs hbs ((ps.length + bs - 1) / bs) ps rfl, mapM_trace_ok]
  have hsims : ∀ cpu batch_size?,
      execute_simulations_exc cpu (fun a => (Except.ok (g a) : Except ε β)) ps batch_size?
        = Except.ok (ps.map g) := by
    intro cpu batch_size?
    rw [exec_sims_eq_mapM_trace cpu _ ps batch_size? hne, mapM_trace_ok]
  refine ⟨hseq, ?_, hsims, ?_⟩
  · intro bs hbs
    rw [exec_par_eq_seq, hseq bs hbs]
  · intro cpu batch_size?
    exact ⟨ps.map g, hsims cpu batch_size?, List.length_map _ _,
      fun i => List.getElem?_map g ps i⟩

/-- Witness for C3: five indexed parameter sets, batch size 2 (smaller than
n = 5), on both a multi-CPU and a single-CPU configuration. -/
theorem C3_execution_order_witness :
    ([[("i", (1 : ℚ))], [("i", 2)], [("i", 3)], [("i", 4)], [("i", 5)]]
        ≠ ([] : List (List (String × ℚ)))) ∧
    (∀ cpu batch_size?,
      execute_simulations_exc cpu
        (fun a => (Except.ok (dictLookup a "i") : Except Unit (Option ℚ)))
        [[("i", (1 : ℚ))], [("i", 2)], [("i", 3)], [("i", 4)], [("i", 5)]] batch_size?
        = Except.ok ([[("i", (1 : ℚ))], [("i", 2)], [("i", 3)], [("i", 4)], [("i", 5)]].map
            (fun a => dictLookup a "i"))) ∧
    execute_simulations_exc 4
      (fun a => (Except.ok (dictLookup a "i") : Except Unit (Option ℚ)))
      [[("i", (1 : ℚ))], [("i", 2)], [("i", 3)], [("i", 4)], [("i", 5)]] (some 2)
      = Except.ok [some 1, some 2, some 3, some 4, some 5] := by
  refine ⟨by simp, (C3_execution_order _ _ (by simp)).2.2.1, ?_⟩
  rw [(C3_execution_order _ _ (by simp)).2.2.1 4 (some 2)]
  rfl

/-- C5: `run(force=False)` returns `skipped` — before generating parameter
sets, invoking the user function, or persisting anything — exactly when some
filename in the data directory contains the configuration hash as a substring;
with `force=True` the guard is bypassed and the sweep executes. -/
theorem C5_skip_guard {α β ε : Type} [Field α] (log10 : α → α) (pw : α → α → α)
    (config : Config α) (param_hash timestamp : String) (dataFiles : List String)
    (func : List (String × α) → Except ε β) (force opt : Bool) (base : α)
    (cpu : Nat) (batch_size? : Option Nat) :
    (run log10 pw config param_hash timestamp dataFiles func force opt base cpu batch_size?
        = RunOutcome.skipped
      ↔ force = false ∧ ∃ file ∈ dataFiles, ∃ l r, file.data = l ++ param_hash.data ++ r) ∧
    (force = true →
      run log10 pw config param_hash timestamp dataFiles func force opt base cpu batch_size?
        ≠ RunOutcome.skipped) := by
  have hnotskip : ∀ (h : ¬(force = false ∧ check_existing_data dataFiles param_hash = true)),
      run log10 pw config param_hash timestamp dataFiles func force opt base cpu batch_size?
        ≠ RunOutcome.skipped := by
    intro h hc
    unfold run at hc
    rw [if_neg h] at hc
    split at hc
    · cases hc
    · split at hc
      · cases hc
      · split at hc
        · cases hc
        · cases hc
  constructor
  · constructor
    · intro hrun
      by_cases hc : force = false ∧ check_existing_data dataFiles param_hash = true
      · exact ⟨hc.1, (check_existing_data_iff _ _).mp hc.2⟩
      · exact absurd hrun (hnotskip hc)
    · rintro ⟨hforce, hex⟩
      unfold run
      rw [if_pos ⟨hforce, (check_existing_data_iff _ _).mpr hex⟩]
  · intro hforce
    exact hnotskip (by rw [hforce]; rintro ⟨hc, _⟩; cases hc)

/-- C7: if the user function raises on some parameter set (all earlier sets
succeed), the exception propagates uncaught: the sequential executor returns
that exception with the invocation trace stopping at the raising set (later
sets and batches are never invoked), `run` returns the propagated failure for
every CPU count and batch size, and no result artifact is produced. -/
theorem C7_exception_propagation {α β ε : Type} [Field α] (log10 : α → α) (pw : α → α → α)
    (config : Config α) (param_hash timestamp : String) (dataFiles : List String)
    (func : List (String × α) → Except ε β) (opt : Bool) (base : α)
    (batch_size? : Option Nat)
    (l₁ l₂ : List (List (String × α))) (x : List (String × α)) (err : ε)
    (hsets : generate_parameter_sets log10 pw config base = l₁ ++ x :: l₂)
    (hok : ∀ a ∈ l₁, ∃ b, func a = Except.ok b)
    (hx : func x = Except.error err) :
    (∀ bs, 1 ≤ bs →
      execute_sequential_exc func (l₁ ++ x :: l₂) bs = (Except.error err, l₁ ++ [x])) ∧
    (∀ cpu,
      run log10 pw config param_hash timestamp dataFiles func true opt base cpu batch_size?
        = RunOutcome.failed err) ∧
    (∀ cpu results artifact,
      run log10 pw config param_hash timestamp dataFiles func true opt base cpu batch_size?
        ≠ RunOutcome.completed results artifact) := by
  have hexec : ∀ cpu,
      execute_simulations_exc cpu func (l₁ ++ x :: l₂) batch_size? = Except.error err := by
    intro cpu
    rw [exec_sims_eq_mapM_trace cpu func _ batch_size? (by cases l₁ <;> simp),
      mapM_trace_error func l₁ l₂ x err hok hx]
  have hseq : ∀ bs, 1 ≤ bs →
      execute_sequential_exc func (l₁ ++ x :: l₂) bs = (Except.error err, l₁ ++ [x]) := by
    intro bs hbs
    rw [exec_seq_eq_mapM_trace func bs hbs (((l₁ ++ x :: l₂).length + bs - 1) / bs) _ rfl,
      mapM_trace_error func l₁ l₂ x err hok hx]
  have hrun : ∀ cpu,
      run log10 pw config param_hash timestamp dataFiles func true opt base cpu batch_size?
        = RunOutcome.failed err := by
    intro cpu
    unfold run
    rw [if_neg (by rintro ⟨hc, _⟩; cases hc)]
    cases l₁ with
    | nil =>
      rw [List.nil_append] at hsets hexec
      rw [hsets]
      cases opt with
      | false =>
        show (match execute_simulations_exc cpu func (x :: l₂) batch_size? with
          | Except.error e => RunOutcome.failed e
          | Except.ok results =>
            RunOutcome.completed results (timestamp ++ "_" ++ param_hash)) = _
        rw [hexec cpu]
      | true =>
        show (match (func x >>= fun _ => func x >>= fun _ => Except.ok ()) with
          | Except.error e => RunOutcome.failed e
          | Except.ok _ =>
            match execute_simulations_exc cpu func (x :: l₂) batch_size? with
            | Except.error e => RunOutcome.failed e
            | Except.ok results =>
              RunOutcome.completed results (timestamp ++ "_" ++ param_hash)) = _
        rw [hx]
        rfl
    | cons p l₁ =>
      obtain ⟨b, hb⟩ := hok p (List.mem_cons_self _ _)
      rw [List.cons_append] at hsets hexec
      rw [hsets]
      cases opt with
      | false =>
        show (match execute_simulations_exc cpu func (p :: (l₁ ++ x :: l₂)) batch_size? with
          | Except.error e => RunOutcome.failed e
          | Except.ok results =>
            RunOutcome.completed results (timestamp ++ "_" ++ param_hash)) = _
        rw [hexec cpu]
      | true =>
        show (match (func p >>= fun _ => func p >>= fun _ => Except.ok ()) with
          | Except.error e => RunOutcome.failed e
          | Except.ok _ =>
            match execute_simulations_exc cpu func (p :: (l₁ ++ x :: l₂)) batch_size? with
            | Except.error e => RunOutcome.failed e
            | Except.ok results =>
              RunOutcome.completed results (timestamp ++ "_" ++ param_hash)) = _
        rw [hb]
        show (match execute_simulations_exc cpu func (p :: (l₁ ++ x :: l₂)) batch_size? with
          | Except.error e => RunOutcome.failed e
          | Except.ok results =>
            RunOutcome.completed results (timestamp ++ "_" ++ param_hash)) = _
        rw [hexec cpu]
  refine ⟨hseq, hrun, ?_⟩
  intro cpu results artifact
  rw [hrun cpu]
  intro hc
  cases hc

/-- Witness for C7: a two-set sweep whose user function raises on the first
parameter set — `run` fails with the propagated exception and nothing is
persisted. -/
theorem C7_exception_propagation_witness :
    (generate_parameter_sets (fun x : ℚ => x) (fun _ y : ℚ => y)
        ⟨[("name", (0 : ℚ))], some [("a", fullSpec (0 : ℚ) 4 2 false)]⟩ 10
      = [] ++ (generate_parameter_sets (fun x : ℚ => x) (fun _ y : ℚ => y)
            ⟨[("name", (0 : ℚ))], some [("a", fullSpec (0 : ℚ) 4 2 false)]⟩ 10).getD 0 []
          :: (generate_parameter_sets (fun x : ℚ => x) (fun _ y : ℚ => y)
            ⟨[("name", (0 : ℚ))], some [("a", fullSpec (0 : ℚ) 4 2 false)]⟩ 10).drop 1) ∧
    run (fun x : ℚ => x) (fun _ y : ℚ => y)
        ⟨[("name", (0 : ℚ))], some [("a", fullSpec (0 : ℚ) 4 2 false)]⟩
        "abc12345" "20240101_000000" []
        (fun _ => (Except.error "boom" : Except String (List (String × ℚ))))
        true false 10 1 none
      = RunOutcome.failed "boom" := by
  refine ⟨by rfl, ?_⟩
  exact (C7_exception_propagation (fun x : ℚ => x) (fun _ y : ℚ => y)
    ⟨[("name", (0 : ℚ))], some [("a", fullSpec (0 : ℚ) 4 2 false)]⟩
    "abc12345" "20240101_000000" []
    (fun _ => (Except.error "boom" : Except String (List (String × ℚ))))
    false 10 none
    []
    ((generate_parameter_sets (fun x : ℚ => x) (fun _ y : ℚ => y)
      ⟨[("name", (0 : ℚ))], some [("a", fullSpec (0 : ℚ) 4 2 false)]⟩ 10).drop 1)
    ((generate_parameter_sets (fun x : ℚ => x) (fun _ y : ℚ => y)
      ⟨[("name", (0 : ℚ))], some [("a", fullSpec (0 : ℚ) 4 2 false)]⟩ 10).getD 0 [])
    "boom"
    (by rfl)
    (fun a ha => absurd ha (List.not_mem_nil a))
    (by rfl)).2.1 1

/-- A declared parameter spec lacking one of the required keys `start`,
`end`, `steps` makes the grid comprehension raise `KeyError`
(in both the log-scale and the linear branch). -/
theorem generate_parameter_grid_error {α : Type} [Field α] (log10 : α → α)
    (pw : α → α → α) (base : α) (params : List (String × ParameterSpec α)) :
    ∀ (nm : String) (spec : ParameterSpec α), (nm, spec) ∈ params →
      spec.start? = none ∨ spec.stop? = none ∨ spec.steps? = none →
      ∃ msg, generate_parameter_grid log10 pw params base = Except.error msg := by
  have helem : ∀ (p : String × ParameterSpec α),
      p.2.start? = none ∨ p.2.stop? = none ∨ p.2.steps? = none →
      (if (p.2.log_scale?.getD false) = true then do
          let s ← dictGet p.2.start?
          let e ← dictGet p.2.stop?
          let n ← dictGet p.2.steps?
          pure (p.1, logspace pw (log10 s) (log10 e) n base)
        else do
          let s ← dictGet p.2.start?
          let e ← dictGet p.2.stop?
          let n ← dictGet p.2.steps?
          pure (p.1, linspace s e n))
        = (Except.error "KeyError" : Except String (String × List α)) := by
    intro p hp
    split <;>
    · rcases hs : p.2.start? with _ | sv
      · rfl
      · rcases he : p.2.stop? with _ | ev
        · rfl
        · rcases hn : p.2.steps? with _ | nv
          · rfl
          · rw [hs, he, hn] at hp
            simp at hp
  induction params with
  | nil => intro nm spec hmem _; cases hmem
  | cons pc rest ih =>
    intro nm spec hmem hmiss
    rcases List.mem_cons.mp hmem with heq | hmem2
    · refine ⟨"KeyError", ?_⟩
      unfold generate_parameter_grid
      rw [List.mapM_cons]
      have hF := helem pc (by rw [← heq] at *; exact hmiss)
      rw [hF]
      rfl
    · obtain ⟨msg, hrest⟩ := ih nm spec hmem2 hmiss
      unfold generate_parameter_grid at hrest ⊢
      rw [List.mapM_cons]
      rcases hF : (if (pc.2.log_scale?.getD false) = true then do
          let s ← dictGet pc.2.start?
          let e ← dictGet pc.2.stop?
          let n ← dictGet pc.2.steps?
          pure (pc.1, logspace pw (log10 s) (log10 e) n base)
        else do
          let s ← dictGet pc.2.start?
          let e ← dictGet pc.2.stop?
          let n ← dictGet pc.2.steps?
          pure (pc.1, linspace s e n)) with e | v
      · exact ⟨e, by rw [hF]; rfl⟩
      · refine ⟨msg, ?_⟩
        rw [hF]
        show (mapM _ rest >>= fun bs => pure (v :: bs) : Except String _) = _
        rw [hrest]
        rfl

/-- C10: a `parameters` section in which some declared spec lacks `start`,
`end` or `steps` does not make `run` raise: the `KeyError` is caught,
`_generate_parameter_sets` falls back to the single base `system`
configuration, and the sweep invokes the user function exactly once — exactly
as if no `parameters` section were declared. -/
theorem C10_missing_key_fallback {α β ε : Type} [Field α] (log10 : α → α)
    (pw : α → α → α) (sys : List (String × α))
    (params : List (String × ParameterSpec α)) (base : α)
    (param_hash timestamp : String) (dataFiles : List String)
    (g : List (String × α) → β) (nm : String) (spec : ParameterSpec α)
    (hmem : (nm, spec) ∈ params)
    (hmiss : spec.start? = none ∨ spec.stop? = none ∨ spec.steps? = none) :
    generate_parameter_sets log10 pw ⟨sys, some params⟩ base = [sys] ∧
    (∀ cpu batch_size?,
      run log10 pw ⟨sys, some params⟩ param_hash timestamp dataFiles
          (fun a => (Except.ok (g a) : Except ε β)) true false base cpu batch_size?
        = RunOutcome.completed [g sys] (timestamp ++ "_" ++ param_hash)) ∧
    (∀ bs, 1 ≤ bs →
      execute_sequential_exc (fun a => (Except.ok (g a) : Except ε β)) [sys] bs
        = (Except.ok [g sys], [sys])) := by
  obtain ⟨msg, herr⟩ := generate_parameter_grid_error log10 pw base params nm spec hmem hmiss
  have hsets : generate_parameter_sets log10 pw ⟨sys, some params⟩ base = [sys] := by
    have h1 : generate_parameter_sets log10 pw ⟨sys, some params⟩ base
        = match generate_parameter_grid log10 pw params base with
          | Except.error _ => [sys]
          | Except.ok g => (itproduct (g.map Prod.snd)).map (overlay sys (g.map Prod.fst)) :=
      rfl
    rw [h1, herr]
  have hseq : ∀ bs, 1 ≤ bs →
      execute_sequential_exc (fun a => (Except.ok (g a) : Except ε β)) [sys] bs
        = (Except.ok [g sys], [sys]) := by
    intro bs hbs
    rw [exec_seq_eq_mapM_trace _ bs hbs (([sys].length + bs - 1) / bs) [sys] rfl,
      mapM_trace_ok]
    rfl
  refine ⟨hsets, ?_, hseq⟩
  intro cpu batch_size?
  unfold run
  rw [if_neg (by rintro ⟨hc, _⟩; cases hc)]
  rw [hsets]
  show (match execute_simulations_exc cpu (fun a => (Except.ok (g a) : Except ε β))
      [sys] batch_size? with
    | Except.error e => RunOutcome.failed e
    | Except.ok results =>
      RunOutcome.completed results (timestamp ++ "_" ++ param_hash)) = _
  rw [exec_sims_eq_mapM_trace cpu _ [sys] batch_size? (by simp), mapM_trace_ok]
  rfl

/-- Witness for C10: a spec with the `steps` key absent — parameter-set
generation falls back to the base system configuration and `run` completes
after a single invocation. -/
theorem C10_missing_key_fallback_witness :
    (((("a" : String), (⟨some (1 : ℚ), some 2, none, some false⟩ : ParameterSpec ℚ))
        ∈ [(("a" : String), (⟨some (1 : ℚ), some 2, none, some false⟩ : ParameterSpec ℚ))]) ∧
      ((⟨some (1 : ℚ), some 2, none, some false⟩ : ParameterSpec ℚ).start? = none ∨
        (⟨some (1 : ℚ), some 2, none, some false⟩ : ParameterSpec ℚ).stop? = none ∨
        (⟨some (1 : ℚ), some 2, none, some false⟩ : ParameterSpec ℚ).steps? = none)) ∧
    generate_parameter_sets (fun x : ℚ => x) (fun _ y : ℚ => y)
        ⟨[("name", (0 : ℚ))],
          some [("a", (⟨some (1 : ℚ), some 2, none, some false⟩ : ParameterSpec ℚ))]⟩ 10
      = [[("name", (0 : ℚ))]] ∧
    run (fun x : ℚ => x) (fun _ y : ℚ => y)
        ⟨[("name", (0 : ℚ))],
          some [("a", (⟨some (1 : ℚ), some 2, none, some false⟩ : ParameterSpec ℚ))]⟩
        "abc12345" "20240101_000000" []
        (fun a => (Except.ok a : Except String (List (String × ℚ)))) true false 10 1 none
      = RunOutcome.completed [[("name", (0 : ℚ))]] ("20240101_000000" ++ "_" ++ "abc12345") := by
  have h := @C10_missing_key_fallback ℚ (List (String × ℚ)) String inferInstance
    (fun x : ℚ => x) (fun _ y : ℚ => y)
    [("name", (0 : ℚ))]
    [("a", (⟨some (1 : ℚ), some 2, none, some false⟩ : ParameterSpec ℚ))] 10
    "abc12345" "20240101_000000" []
    (fun a => (a : List (String × ℚ))) "a"
    (⟨some (1 : ℚ), some 2, none, some false⟩ : ParameterSpec ℚ)
    (List.mem_singleton.mpr rfl)
    (Or.inr (Or.inr rfl))
  exact ⟨⟨List.mem_singleton.mpr rfl, Or.inr (Or.inr rfl)⟩, h.1, h.2.1 1 none⟩

/-! ### Configuration hashing (`_load_config`, lines 218-219):
`json.dumps(self.config, sort_keys=True) + self.project_name`, then
`hashlib.sha256(...).hexdigest()[:8]`.  JSON values are embedded as a mutual
inductive (arrays and objects carry their own list types so that all
recursion is structural and kernel-reducible); numeric scalars are embedded
as integers — the canonicalization argument is independent of the scalar
formatting. -/

mutual
inductive J where
  | null
  | bool (b : Bool)
  | num (n : Int)
  | str (s : String)
  | arr (vs : JList)
  | obj (kvs : JPairs)
inductive JList where
  | nil
  | cons (v : J) (vs : JList)
inductive JPairs where
  | nil
  | cons (k : String) (v : J) (kvs : JPairs)
end

/-- Code-point lexicographic order on character lists — Python's `<` on
`str`, which is what `sort_keys=True` sorts dictionary keys by. -/
def listCharLe : List Char → List Char → Bool
  | [], _ => true
  | _ :: _, [] => false
  | c :: cs, d :: ds => if c < d then true else if d < c then false else listCharLe cs ds

/-- Key order on serialized key-value pairs. -/
def pairLe (a b : String × String) : Prop := listCharLe a.1.data b.1.data = true

instance : DecidableRel pairLe := fun a b => instDecidableEqBool _ _

/-- Sorting the serialized pairs of one object by key. -/
def sortPairs (l : List (String × String)) : List (String × String) :=
  l.insertionSort pairLe

mutual
/-- `json.dumps` with `sort_keys=True` and the default `", "`/`": "`
separators (string escaping elided — the keys and values hashed here are
plain text, and the canonicalization property does not depend on it). -/
def dumps : J → String
  | J.null => "null"
  | J.bool b => if b then "true" else "false"
  | J.num n => toString n
  | J.str s => "\"" ++ s ++ "\""
  | J.arr vs => "[" ++ String.intercalate ", " (dumpsList vs) ++ "]"
  | J.obj kvs => "\x7b" ++ String.intercalate ", "
      ((sortPairs (dumpsPairs kvs)).map fun kv => "\"" ++ kv.1 ++ "\": " ++ kv.2) ++ "\x7d"
def dumpsList : JList → List String
  | JList.nil => []
  | JList.cons v vs => dumps v :: dumpsList vs
def dumpsPairs : JPairs → List (String × String)
  | JPairs.nil => []
  | JPairs.cons k v kvs => (k, dumps v) :: dumpsPairs kvs
end

section KeyOrder

theorem listCharLe_total : ∀ x y : List Char, listCharLe x y = true ∨ listCharLe y x = true := by
  intro x
  induction x with
  | nil => intro y; left; rfl
  | cons c cs ih =>
    intro y
    cases y with
    | nil => right; rfl
    | cons d ds =>
      show (if c < d then true else if d < c then false else listCharLe cs ds) = true ∨
        (if d < c then true else if c < d then false else listCharLe ds cs) = true
      rcases lt_trichotomy c d with h | h | h
      · left; rw [if_pos h]
      · subst h
        rcases ih ds with h2 | h2
        · left
          rw [if_neg (lt_irrefl c)]
          rw [if_neg (lt_irrefl c)]
          exact h2
        · right
          rw [if_neg (lt_irrefl c)]
          rw [if_neg (lt_irrefl c)]
          exact h2
      · right; rw [if_pos h]

theorem listCharLe_trans : ∀ x y z : List Char, listCharLe x y = true →
    listCharLe y z = true → listCharLe x z = true := by
  intro x
  induction x with
  | nil => intro y z _ _; rfl
  | cons c cs ih =>
    intro y z hxy hyz
    cases y with
    | nil => cases hxy
    | cons d ds =>
      cases z with
      | nil => cases hyz
      | cons e es =>
        show (if c < e then true else if e < c then false else listCharLe cs es) = true
        revert hxy hyz
        show (if c < d then true else if d < c then false else listCharLe cs ds) = true →
          (if d < e then true else if e < d then false else listCharLe ds es) = true → _
        rcases lt_trichotomy c d with h1 | h1 | h1 <;>
          rcases lt_trichotomy d e with h2 | h2 | h2 <;>
            intro hxy hyz
        · rw [if_pos (lt_trans h1 h2)]
        · subst h2; rw [if_pos h1]
        · rw [if_neg (lt_asymm h2), if_pos h2] at hyz; cases hyz
        · subst h1; rw [if_pos h2]
        · subst h1; subst h2
          rw [if_neg (lt_irrefl c)] at hxy hyz ⊢
          rw [if_neg (lt_irrefl c)] at hxy hyz ⊢
          exact ih _ _ hxy hyz
        · rw [if_neg (lt_asymm h2), if_pos h2] at hyz; cases hyz
        · rw [if_neg (lt_asymm h1), if_pos h1] at hxy; cases hxy
        · rw [if_neg (lt_asymm h1), if_pos h1] at hxy; cases hxy
        · rw [if_neg (lt_asymm h1), if_pos h1] at hxy; cases hxy

theorem listCharLe_antisymm : ∀ x y : List Char, listCharLe x y = true →
    listCharLe y x = true → x = y := by
  intro x
  induction x with
  | nil =>
    intro y _ hyx
    cases y with
    | nil => rfl
    | cons d ds => cases hyx
  | cons c cs ih =>
    intro y hxy hyx
    cases y with
    | nil => cases hxy
    | cons d ds =>
      revert hxy hyx
      show (if c < d then true else if d < c then false else listCharLe cs ds) = true →
        (if d < c then true else if c < d then false else listCharLe ds cs) = true → _
      rcases lt_trichotomy c d with h | h | h <;> intro hxy hyx
      · rw [if_neg (lt_asymm h), if_pos h] at hyx
        cases hyx
      · subst h
        rw [if_neg (lt_irrefl c)] at hxy hyx
        rw [if_neg (lt_irrefl c)] at hxy hyx
        rw [ih ds hxy hyx]
      · rw [if_neg (lt_asymm h), if_pos h] at hxy
        cases hxy

instance : IsTotal (String × String) pairLe :=
  ⟨fun a b => listCharLe_total a.1.data b.1.data⟩

instance : IsTrans (String × String) pairLe :=
  ⟨fun _ _ _ => listCharLe_trans _ _ _⟩

theorem pairLe_key_eq {a b : String × String} (hab : pairLe a b) (hba : pairLe b a) :
    a.1 = b.1 := by
  obtain ⟨⟨ka⟩, va⟩ := a
  obtain ⟨⟨kb⟩, vb⟩ := b
  exact congrArg String.mk (listCharLe_antisymm ka kb hab hba)

end KeyOrder

section AssocPerm

variable {α : Type} [DecidableEq α]

theorem dictLookup_cons_ne {p : String × α} {t : List (String × α)} {k : String}
    (h : p.1 ≠ k) : dictLookup (p :: t) k = dictLookup t k := by
  show (if p.1 = k then some p.2 else dictLookup t k) = dictLookup t k
  rw [if_neg h]

theorem dictLookup_eq_none_of_not_mem {l : List (String × α)} {k : String}
    (h : k ∉ l.map Prod.fst) : dictLookup l k = none := by
  induction l with
  | nil => rfl
  | cons p t ih =>
    rw [List.map_cons, List.mem_cons, not_or] at h
    unfold dictLookup
    rw [if_neg (fun hc => h.1 hc.symm)]
    exact ih h.2

theorem dictLookup_some_mem {l : List (String × α)} {k : String} {v : α}
    (h : dictLookup l k = some v) : (k, v) ∈ l := by
  induction l with
  | nil => cases h
  | cons p t ih =>
    unfold dictLookup at h
    by_cases hp : p.1 = k
    · rw [if_pos hp] at h
      have hv := Option.some_injective _ h
      rw [← hp, ← hv]
      exact List.mem_cons_self _ _
    · rw [if_neg hp] at h
      exact List.mem_cons_of_mem _ (ih h)

/-- Remove the first occurrence of a pair (`list.remove` specialised so that
no `BEq` instance ambiguity arises). -/
def removeFirst : List (String × α) → (String × α) → List (String × α)
  | [], _ => []
  | q :: t, p => if q = p then t else q :: removeFirst t p

theorem perm_cons_removeFirst {p : String × α} : ∀ {l : List (String × α)},
    p ∈ l → l.Perm (p :: removeFirst l p) := by
  intro l
  induction l with
  | nil => intro h; cases h
  | cons q t ih =>
    intro h
    show (q :: t).Perm (p :: (if q = p then t else q :: removeFirst t p))
    by_cases hq : q = p
    · rw [if_pos hq, hq]
    · rw [if_neg hq]
      rcases List.mem_cons.mp h with h2 | h2
      · exact absurd h2.symm hq
      · exact ((ih h2).cons q).trans (List.Perm.swap p q _)

theorem dictLookup_removeFirst_ne (l : List (String × α)) (p : String × α) (k : String)
    (h : p.1 ≠ k) : dictLookup (removeFirst l p) k = dictLookup l k := by
  induction l with
  | nil => rfl
  | cons q t ih =>
    show dictLookup (if q = p then t else q :: removeFirst t p) k = _
    by_cases hq : q = p
    · rw [if_pos hq]
      rw [dictLookup_cons_ne (by rw [hq]; exact h)]
    · rw [if_neg hq]
      by_cases hqk : q.1 = k
      · unfold dictLookup
        rw [if_pos hqk, if_pos hqk]
      · rw [dictLookup_cons_ne hqk, dictLookup_cons_ne hqk]
        exact ih

/-- Two duplicate-free association lists that agree as mappings are
permutations of each other. -/
theorem lookup_eq_perm : ∀ (l₁ l₂ : List (String × α)),
    (l₁.map Prod.fst).Nodup → (l₂.map Prod.fst).Nodup →
    (∀ k, dictLookup l₁ k = dictLookup l₂ k) → l₁.Perm l₂ := by
  intro l₁
  induction l₁ with
  | nil =>
    intro l₂ _ _ hlook
    cases l₂ with
    | nil => exact List.Perm.refl _
    | cons p t =>
      have h := hlook p.1
      unfold dictLookup at h
      rw [if_pos rfl] at h
      cases h
  | cons a t₁ ih =>
    intro l₂ hnd₁ hnd₂ hlook
    have hmem2 : a ∈ l₂ := by
      have hmem : (a.1, a.2) ∈ l₂ := by
        apply dictLookup_some_mem
        rw [← hlook a.1]
        unfold dictLookup
        rw [if_pos rfl]
      exact hmem
    have hperm2 : l₂.Perm (a :: removeFirst l₂ a) := perm_cons_removeFirst hmem2
    have hnd₁t : (t₁.map Prod.fst).Nodup := by
      rw [List.map_cons] at hnd₁
      exact (List.nodup_cons.mp hnd₁).2
    have ha1t : a.1 ∉ t₁.map Prod.fst := by
      rw [List.map_cons] at hnd₁
      exact (List.nodup_cons.mp hnd₁).1
    have hkeyperm : (l₂.map Prod.fst).Perm (a.1 :: (removeFirst l₂ a).map Prod.fst) := by
      have h2 := hperm2.map Prod.fst
      simpa using h2
    have hnd₂e : ((removeFirst l₂ a).map Prod.fst).Nodup := by
      have h2 := (hkeyperm.nodup_iff).mp hnd₂
      exact (List.nodup_cons.mp h2).2
    have ha1e : a.1 ∉ (removeFirst l₂ a).map Prod.fst := by
      have h2 := (hkeyperm.nodup_iff).mp hnd₂
      exact (List.nodup_cons.mp h2).1
    have hlook2 : ∀ k, dictLookup t₁ k = dictLookup (removeFirst l₂ a) k := by
      intro k
      by_cases hk : k = a.1
      · subst hk
        rw [dictLookup_eq_none_of_not_mem ha1t, dictLookup_eq_none_of_not_mem ha1e]
      · rw [dictLookup_removeFirst_ne l₂ a k (fun hc => hk hc.symm)]
        have h3 := hlook k
        rw [dictLookup_cons_ne (fun hc => hk hc.symm)] at h3
        exact h3
    exact ((ih (removeFirst l₂ a) hnd₁t hnd₂e hlook2).cons a).trans hperm2.symm

end AssocPerm

/-- Two key-sorted duplicate-free pair lists that are permutations of each
other are equal. -/
theorem sorted_nodup_perm_eq : ∀ (l₁ l₂ : List (String × String)),
    l₁.Perm l₂ → l₁.Pairwise pairLe → l₂.Pairwise pairLe →
    (l₁.map Prod.fst).Nodup → l₁ = l₂ := by
  intro l₁
  induction l₁ with
  | nil =>
    intro l₂ hperm _ _ _
    exact hperm.nil_eq
  | cons a t₁ ih =>
    intro l₂ hperm hs₁ hs₂ hnd
    cases l₂ with
    | nil => cases hperm.symm.nil_eq
    | cons b t₂ =>
      have ha2 : a ∈ b :: t₂ := hperm.subset (List.mem_cons_self _ _)
      have hb1 : b ∈ a :: t₁ := hperm.symm.subset (List.mem_cons_self _ _)
      have hab : a = b := by
        rcases List.mem_cons.mp ha2 with h | h
        · exact h
        · rcases List.mem_cons.mp hb1 with h2 | h2
          · exact h2.symm
          · exfalso
            have hba : pairLe b a := (List.pairwise_cons.mp hs₂).1 a h
            have hab2 : pairLe a b := (List.pairwise_cons.mp hs₁).1 b h2
            have hkey : a.1 = b.1 := pairLe_key_eq hab2 hba
            rw [List.map_cons] at hnd
            exact (List.nodup_cons.mp hnd).1
              (hkey ▸ List.mem_map_of_mem Prod.fst h2)
      subst hab
      have htails : t₁.Perm t₂ := hperm.cons_inv
      have heq : t₁ = t₂ := by
        apply ih t₂ htails (List.pairwise_cons.mp hs₁).2 (List.pairwise_cons.mp hs₂).2
        rw [List.map_cons] at hnd
        exact (List.nodup_cons.mp hnd).2
      rw [heq]

/-- The keys of an embedded JSON object, in insertion order. -/
def keysOf : JPairs → List String
  | JPairs.nil => []
  | JPairs.cons k _ kvs => k :: keysOf kvs

/-- The binding of `k` in an embedded JSON object (first occurrence). -/
def lookupP (k : String) : JPairs → Option J
  | JPairs.nil => none
  | JPairs.cons k' v kvs => if k' = k then some v else lookupP k kvs

mutual
/-- Identical content regardless of mapping-insertion order: scalars equal,
arrays positionally equivalent, objects duplicate-free with the same key set
and equivalent values at every key. -/
def jEq : J → J → Bool
  | J.null, J.null => true
  | J.bool x, J.bool y => x == y
  | J.num x, J.num y => x == y
  | J.str x, J.str y => x == y
  | J.arr vs, J.arr ws => jListEq vs ws
  | J.obj kvs, J.obj kws =>
      decide (keysOf kvs).Nodup && decide (keysOf kws).Nodup &&
      decide (∀ k ∈ keysOf kws, k ∈ keysOf kvs) && jPairsIncl kvs kws
  | _, _ => false
def jListEq : JList → JList → Bool
  | JList.nil, JList.nil => true
  | JList.cons v vs, JList.cons w ws => jEq v w && jListEq vs ws
  | _, _ => false
def jPairsIncl : JPairs → JPairs → Bool
  | JPairs.nil, _ => true
  | JPairs.cons k v kvs, kws =>
      (match lookupP k kws with
       | some w => jEq v w
       | none => false) && jPairsIncl kvs kws
end

theorem dumpsPairs_keys : ∀ kvs : JPairs, (dumpsPairs kvs).map Prod.fst = keysOf kvs
  | JPairs.nil => rfl
  | JPairs.cons k v kvs => by
    show k :: (dumpsPairs kvs).map Prod.fst = k :: keysOf kvs
    rw [dumpsPairs_keys kvs]

theorem dumpsPairs_lookup : ∀ (kvs : JPairs) (k : String),
    dictLookup (dumpsPairs kvs) k = Option.map dumps (lookupP k kvs)
  | JPairs.nil, _ => rfl
  | JPairs.cons k0 v kvs, k => by
    show (if k0 = k then some (dumps v) else dictLookup (dumpsPairs kvs) k)
      = Option.map dumps (if k0 = k then some v else lookupP k kvs)
    by_cases hk : k0 = k
    · rw [if_pos hk, if_pos hk]
      rfl
    · rw [if_neg hk, if_neg hk]
      exact dumpsPairs_lookup kvs k

theorem lookupP_eq_none_of_not_mem : ∀ (kvs : JPairs) (k : String),
    k ∉ keysOf kvs → lookupP k kvs = none
  | JPairs.nil, _, _ => rfl
  | JPairs.cons k0 v kvs, k, hk => by
    rw [keysOf, List.mem_cons, not_or] at hk
    show (if k0 = k then some v else lookupP k kvs) = none
    rw [if_neg (fun hc => hk.1 hc.symm)]
    exact lookupP_eq_none_of_not_mem kvs k hk.2

theorem lookupP_none_not_mem : ∀ (kvs : JPairs) (k : String),
    lookupP k kvs = none → k ∉ keysOf kvs
  | JPairs.nil, _, _ => fun hc => by cases hc
  | JPairs.cons k0 v kvs, k, h => fun hc => by
    revert h
    show (if k0 = k then some v else lookupP k kvs) = none → False
    rcases List.mem_cons.mp hc with h2 | h2
    · rw [if_pos h2.symm]
      intro h3
      cases h3
    · by_cases hk : k0 = k
      · rw [if_pos hk]
        intro h3
        cases h3
      · rw [if_neg hk]
        intro h3
        exact lookupP_none_not_mem kvs k h3 h2

mutual

theorem jEq_dumps : ∀ (a b : J), jEq a b = true → dumps a = dumps b
  | J.null, J.null => fun _ => rfl
  | J.null, J.bool _ => nofun
  | J.null, J.num _ => nofun
  | J.null, J.str _ => nofun
  | J.null, J.arr _ => nofun
  | J.null, J.obj _ => nofun
  | J.bool _, J.null => nofun
  | J.bool x, J.bool y => fun h => by
      have h2 : x = y := by simpa [jEq] using h
      rw [h2]
  | J.bool _, J.num _ => nofun
  | J.bool _, J.str _ => nofun
  | J.bool _, J.arr _ => nofun
  | J.bool _, J.obj _ => nofun
  | J.num _, J.null => nofun
  | J.num _, J.bool _ => nofun
  | J.num x, J.num y => fun h => by
      have h2 : x = y := by simpa [jEq] using h
      rw [h2]
  | J.num _, J.str _ => nofun
  | J.num _, J.arr _ => nofun
  | J.num _, J.obj _ => nofun
  | J.str _, J.null => nofun
  | J.str _, J.bool _ => nofun
  | J.str _, J.num _ => nofun
  | J.str x, J.str y => fun h => by
      have h2 : x = y := by simpa [jEq] using h
      rw [h2]
  | J.str _, J.arr _ => nofun
  | J.str _, J.obj _ => nofun
  | J.arr _, J.null => nofun
  | J.arr _, J.bool _ => nofun
  | J.arr _, J.num _ => nofun
  | J.arr _, J.str _ => nofun
  | J.arr vs, J.arr ws => fun h => by
      have h2 : jListEq vs ws = true := by simpa [jEq] using h
      show "[" ++ String.intercalate ", " (dumpsList vs) ++ "]"
        = "[" ++ String.intercalate ", " (dumpsList ws) ++ "]"
      rw [jListEq_dumps vs ws h2]
  | J.arr _, J.obj _ => nofun
  | J.obj _, J.null => nofun
  | J.obj _, J.bool _ => nofun
  | J.obj _, J.num _ => nofun
  | J.obj _, J.str _ => nofun
  | J.obj _, J.arr _ => nofun
  | J.obj kvs, J.obj kws => fun h => by
      have h2 := h
      simp only [jEq, Bool.and_eq_true, decide_eq_true_eq] at h2
      obtain ⟨⟨⟨hnd1, hnd2⟩, hsub⟩, hincl⟩ := h2
      have hlook : ∀ k, dictLookup (dumpsPairs kvs) k = dictLookup (dumpsPairs kws) k := by
        intro k
        rw [dumpsPairs_lookup, dumpsPairs_lookup]
        rcases hk : lookupP k kvs with _ | v
        · have hnk : k ∉ keysOf kvs := lookupP_none_not_mem kvs k hk
          have hnk2 : k ∉ keysOf kws := fun hc => hnk (hsub k hc)
          rw [lookupP_eq_none_of_not_mem kws k hnk2]
        · obtain ⟨w, hw, hdw⟩ := jPairsIncl_lookup kvs kws hincl k v hk
          rw [hw]
          simp only [Option.map_some']
          rw [hdw]
      have hperm : (dumpsPairs kvs).Perm (dumpsPairs kws) := by
        apply lookup_eq_perm
        · rw [dumpsPairs_keys]; exact hnd1
        · rw [dumpsPairs_keys]; exact hnd2
        · exact hlook
      have hsorted : sortPairs (dumpsPairs kvs) = sortPairs (dumpsPairs kws) := by
        apply sorted_nodup_perm_eq
        · exact ((List.perm_insertionSort pairLe _).trans hperm).trans
            (List.perm_insertionSort pairLe _).symm
        · exact List.sorted_insertionSort pairLe _
        · exact List.sorted_insertionSort pairLe _
        · have hp := (List.perm_insertionSort pairLe (dumpsPairs kvs)).map Prod.fst
          rw [dumpsPairs_keys] at hp
          exact (hp.nodup_iff).mpr hnd1
      show "\x7b" ++ String.intercalate ", "
          ((sortPairs (dumpsPairs kvs)).map fun kv => "\"" ++ kv.1 ++ "\": " ++ kv.2) ++ "\x7d"
        = "\x7b" ++ String.intercalate ", "
          ((sortPairs (dumpsPairs kws)).map fun kv => "\"" ++ kv.1 ++ "\": " ++ kv.2) ++ "\x7d"
      rw [hsorted]

theorem jListEq_dumps : ∀ (vs ws : JList), jListEq vs ws = true → dumpsList vs = dumpsList ws
  | JList.nil, JList.nil => fun _ => rfl
  | JList.nil, JList.cons _ _ => nofun
  | JList.cons _ _, JList.nil => nofun
  | JList.cons v vs, JList.cons w ws => fun h => by
      have h2 : jEq v w = true ∧ jListEq vs ws = true := by
        simpa [jListEq, Bool.and_eq_true] using h
      show dumps v :: dumpsList vs = dumps w :: dumpsList ws
      rw [jEq_dumps v w h2.1, jListEq_dumps vs ws h2.2]

theorem jPairsIncl_lookup : ∀ (kvs kws : JPairs), jPairsIncl kvs kws = true →
    ∀ (k : String) (v : J), lookupP k kvs = some v →
      ∃ w, lookupP k kws = some w ∧ dumps v = dumps w
  | JPairs.nil, _ => fun _ _ _ hv => nomatch hv
  | JPairs.cons k0 v0 rest, kws => fun h k v hv => by
      have h2 : (match lookupP k0 kws with
          | some w => jEq v0 w
          | none => false) = true ∧ jPairsIncl rest kws = true := by
        simpa [jPairsIncl, Bool.and_eq_true] using h
      by_cases hk : k0 = k
      · subst hk
        have hv0 : v0 = v := by
          have h3 : (if k0 = k0 then some v0 else lookupP k0 rest) = some v := hv
          rw [if_pos rfl] at h3
          exact Option.some_injective _ h3
        rcases hw : lookupP k0 kws with _ | w
        · rw [hw] at h2
          exact absurd h2.1 (by simp)
        · refine ⟨w, rfl, ?_⟩
          rw [← hv0]
          apply jEq_dumps v0 w
          rw [hw] at h2
          exact h2.1
      · have hv2 : lookupP k rest = some v := by
          have h3 : (if k0 = k then some v0 else lookupP k rest) = some v := hv
          rw [if_neg hk] at h3
          exact h3
        exact jPairsIncl_lookup rest kws h2.2 k v hv2

end

/-! ### SHA-256 (`hashlib.sha256`), over natural numbers reduced mod 2^32 -/

/-- Truncation to a 32-bit word. -/
def w32 (x : Nat) : Nat := x % 4294967296

/-- 32-bit right rotation. -/
def rotr32 (n x : Nat) : Nat := w32 (x / 2 ^ n + x % 2 ^ n * 2 ^ (32 - n))

/-- 32-bit bitwise complement. -/
def bnot32 (x : Nat) : Nat := 4294967295 - x

def chF (x y z : Nat) : Nat := (x &&& y) ^^^ (bnot32 x &&& z)

def majF (x y z : Nat) : Nat := (x &&& y) ^^^ (x &&& z) ^^^ (y &&& z)

def bigSigma0 (x : Nat) : Nat := rotr32 2 x ^^^ rotr32 13 x ^^^ rotr32 22 x

def bigSigma1 (x : Nat) : Nat := rotr32 6 x ^^^ rotr32 11 x ^^^ rotr32 25 x

def smallSigma0 (x : Nat) : Nat := rotr32 7 x ^^^ rotr32 18 x ^^^ (x / 2 ^ 3)

def smallSigma1 (x : Nat) : Nat := rotr32 17 x ^^^ rotr32 19 x ^^^ (x / 2 ^ 10)

/-- The 64 SHA-256 round constants. -/
def sha256K : List Nat :=
  [1116352408, 1899447441, 3049323471, 3921009573, 961987163, 1508970993,
   2453635748, 2870763221, 3624381080, 310598401, 607225278, 1426881987,
   1925078388, 2162078206, 2614888103, 3248222580, 3835390401, 4022224774,
   264347078, 604807628, 770255983, 1249150122, 1555081692, 1996064986,
   2554220882, 2821834349, 2952996808, 3210313671, 3336571891, 3584528711,
   113926993, 338241895, 666307205, 773529912, 1294757372, 1396182291,
   1695183700, 1986661051, 2177026350, 2456956037, 2730485921, 2820302411,
   3259730800, 3345764771, 3516065817, 3600352804, 4094571909, 275423344,
   430227734, 506948616, 659060556, 883997877, 958139571, 1322822218,
   1537002063, 1747873779, 1955562222, 2024104815, 2227730452, 2361852424,
   2428436474, 2756734187, 3204031479, 3329325298]

/-- The eight 32-bit working variables of the compression function. -/
structure Hash8 where
  a : Nat
  b : Nat
  c : Nat
  d : Nat
  e : Nat
  f : Nat
  g : Nat
  h : Nat

/-- SHA-256 initial hash value. -/
def sha256Init : Hash8 :=
  ⟨1779033703, 3144134277, 1013904242, 2773480762,
   1359893119, 2600822924, 528734635, 1541459225⟩

/-- `n` big-endian bytes of `v`. -/
def beBytes (n v : Nat) : List Nat :=
  (List.range n).map fun i => v / 2 ^ (8 * (n - 1 - i)) % 256

/-- SHA-256 padding: `0x80`, zeros to 56 mod 64, then the 64-bit big-endian
bit length. -/
def padMessage (msg : List Nat) : List Nat :=
  msg ++ 128 :: (List.replicate ((64 - (msg.length + 9) % 64) % 64) 0
    ++ beBytes 8 (msg.length * 8))

/-- Split into 64-byte blocks. -/
def chunk64 : List Nat → List (List Nat)
  | [] => []
  | b :: rest => (b :: rest).take 64 :: chunk64 ((b :: rest).drop 64)
termination_by l => l.length
decreasing_by simp [List.length_drop]; omega

/-- The sixteen 32-bit big-endian message words of one block. -/
def wordsOfBlock (block : List Nat) : List Nat :=
  (List.range 16).map fun i =>
    block.getD (4 * i) 0 * 16777216 + block.getD (4 * i + 1) 0 * 65536
      + block.getD (4 * i + 2) 0 * 256 + block.getD (4 * i + 3) 0

/-- Message-schedule extension, 48 further words. -/
def extendW : Nat → List Nat → List Nat
  | 0, ws => ws
  | fuel + 1, ws =>
    extendW fuel (ws ++ [w32 (smallSigma1 (ws.getD (ws.length - 2) 0)
      + ws.getD (ws.length - 7) 0 + smallSigma0 (ws.getD (ws.length - 15) 0)
      + ws.getD (ws.length - 16) 0)])

/-- One compression round. -/
def compressStep (st : Hash8) (kw : Nat × Nat) : Hash8 :=
  let t1 := w32 (st.h + bigSigma1 st.e + chF st.e st.f st.g + kw.1 + kw.2)
  let t2 := w32 (bigSigma0 st.a + majF st.a st.b st.c)
  ⟨w32 (t1 + t2), st.a, st.b, st.c, w32 (st.d + t1), st.e, st.f, st.g⟩

/-- Process one 512-bit block. -/
def processBlock (st : Hash8) (block : List Nat) : Hash8 :=
  let xs := (sha256K.zip (extendW 48 (wordsOfBlock block))).foldl compressStep st
  ⟨w32 (st.a + xs.a), w32 (st.b + xs.b), w32 (st.c + xs.c), w32 (st.d + xs.d),
   w32 (st.e + xs.e), w32 (st.f + xs.f), w32 (st.g + xs.g), w32 (st.h + xs.h)⟩

/-- The 32-byte SHA-256 digest of a byte string. -/
def sha256Bytes (msg : List Nat) : List Nat :=
  let xs := (chunk64 (padMessage msg)).foldl processBlock sha256Init
  beBytes 4 xs.a ++ beBytes 4 xs.b ++ beBytes 4 xs.c ++ beBytes 4 xs.d
    ++ beBytes 4 xs.e ++ beBytes 4 xs.f ++ beBytes 4 xs.g ++ beBytes 4 xs.h

/-- The sixteen lowercase hex digits, as `hexdigest` uses. -/
def hexDigits : List Char := "0123456789abcdef".data

def hexChar (n : Nat) : Char := hexDigits.getD n '0'

def byteToHex (b : Nat) : List Char := [hexChar (b / 16 % 16), hexChar (b % 16)]

/-- UTF-8 encoding of one code point (`str.encode()`). -/
def utf8Bytes (cp : Nat) : List Nat :=
  if cp < 128 then [cp]
  else if cp < 2048 then [192 + cp / 64, 128 + cp % 64]
  else if cp < 65536 then [224 + cp / 4096, 128 + cp / 64 % 64, 128 + cp % 64]
  else [240 + cp / 262144, 128 + cp / 4096 % 64, 128 + cp / 64 % 64, 128 + cp % 64]

def strBytes (s : String) : List Nat := s.data.flatMap fun c => utf8Bytes c.toNat

/-- `_load_config` (src/yuusim/simulation.py, lines 218-219):
`hashlib.sha256((json.dumps(config, sort_keys=True) + project_name).encode())
.hexdigest()[:8]`. -/
def compute_param_hash (config : J) (project_name : String) : String :=
  String.mk (((sha256Bytes (strBytes (dumps config ++ project_name))).flatMap byteToHex).take 8)

section HashLemmas

theorem beBytes_length (n v : Nat) : (beBytes n v).length = n := by
  rw [beBytes, List.length_map, List.length_range]

theorem sha256Bytes_length (msg : List Nat) : (sha256Bytes msg).length = 32 := by
  rw [sha256Bytes]
  simp only [List.length_append, beBytes_length]

theorem hex_flatMap_length (bytes : List Nat) :
    (bytes.flatMap byteToHex).length = 2 * bytes.length := by
  rw [List.length_flatMap]
  have h : ∀ b : Nat, (byteToHex b).length = 2 := fun b => rfl
  simp only [Function.comp_def, h, List.map_const', List.sum_replicate, smul_eq_mul]
  ring

theorem hexChar_mem (n : Nat) : hexChar n ∈ hexDigits := by
  by_cases h : n < 16
  · interval_cases n <;> decide
  · have h2 : hexChar n = '0' := by
      unfold hexChar
      rw [List.getD_eq_getElem?_getD,
        List.getElem?_eq_none (by rw [show hexDigits.length = 16 from rfl]; omega)]
      rfl
    rw [h2]
    decide

end HashLemmas

/-- C4: the configuration hash is invariant under mapping-insertion order —
two configurations with identical content (same scalars, same array order,
objects equal as key-value mappings) and the same project name hash to the
same string — and every hash is exactly 8 lowercase hexadecimal characters,
obtained by SHA-256 over the key-sorted canonical serialization concatenated
with the project name, truncated.  Determinism across runs is the purity of
the embedded function: the hash depends on nothing but its two arguments. -/
theorem C4_configuration_hash (c₁ c₂ : J) (project_name : String)
    (h : jEq c₁ c₂ = true) :
    compute_param_hash c₁ project_name = compute_param_hash c₂ project_name ∧
    (compute_param_hash c₁ project_name).length = 8 ∧
    (∀ ch ∈ (compute_param_hash c₁ project_name).data, ch ∈ hexDigits) := by
  have hdumps := jEq_dumps c₁ c₂ h
  refine ⟨by unfold compute_param_hash; rw [hdumps], ?_, ?_⟩
  · show (((sha256Bytes (strBytes (dumps c₁ ++ project_name))).flatMap byteToHex).take 8).length
      = 8
    rw [List.length_take, hex_flatMap_length, sha256Bytes_length]
    norm_num
  · intro ch hch
    have hch2 : ch ∈ (sha256Bytes (strBytes (dumps c₁ ++ project_name))).flatMap byteToHex :=
      List.take_subset _ _ hch
    rw [List.mem_flatMap] at hch2
    obtain ⟨b, _, hb⟩ := hch2
    rcases List.mem_cons.mp hb with h1 | h1
    · rw [h1]; exact hexChar_mem _
    · rcases List.mem_cons.mp h1 with h2 | h2
      · rw [h2]; exact hexChar_mem _
      · cases h2

/-- Witness for C4: two configurations with the same content and different
insertion order (both at top level and inside the nested `system` table)
produce the same 8-character hexadecimal hash. -/
theorem C4_configuration_hash_witness :
    jEq
      (J.obj (JPairs.cons "system"
          (J.obj (JPairs.cons "name" (J.str "test")
            (JPairs.cons "size" (J.num 3) JPairs.nil)))
        (JPairs.cons "parameters" (J.obj JPairs.nil) JPairs.nil)))
      (J.obj (JPairs.cons "parameters" (J.obj JPairs.nil)
        (JPairs.cons "system"
          (J.obj (JPairs.cons "size" (J.num 3)
            (JPairs.cons "name" (J.str "test") JPairs.nil))) JPairs.nil)))
      = true ∧
    (compute_param_hash
        (J.obj (JPairs.cons "system"
            (J.obj (JPairs.cons "name" (J.str "test")
              (JPairs.cons "size" (J.num 3) JPairs.nil)))
          (JPairs.cons "parameters" (J.obj JPairs.nil) JPairs.nil))) "test_project"
      = compute_param_hash
        (J.obj (JPairs.cons "parameters" (J.obj JPairs.nil)
          (JPairs.cons "system"
            (J.obj (JPairs.cons "size" (J.num 3)
              (JPairs.cons "name" (J.str "test") JPairs.nil))) JPairs.nil))) "test_project" ∧
      (compute_param_hash
        (J.obj (JPairs.cons "system"
            (J.obj (JPairs.cons "name" (J.str "test")
              (JPairs.cons "size" (J.num 3) JPairs.nil)))
          (JPairs.cons "parameters" (J.obj JPairs.nil) JPairs.nil))) "test_project").length = 8 ∧
      (∀ ch ∈ (compute_param_hash
        (J.obj (JPairs.cons "system"
            (J.obj (JPairs.cons "name" (J.str "test")
              (JPairs.cons "size" (J.num 3) JPairs.nil)))
          (JPairs.cons "parameters" (J.obj JPairs.nil) JPairs.nil))) "test_project").data,
        ch ∈ hexDigits)) :=
  ⟨by decide, C4_configuration_hash _ _ "test_project" (by decide)⟩

/-! ### Configuration loading (`yuusim/io/config.py` and `_load_config`) -/

/-- The exception kinds `setup` can surface, with the Python inheritance fact
that matters here: `DataFileNotFoundError` subclasses `FileNotFoundError`,
while `ConfigurationError` subclasses plain `Exception`. -/
inductive PyError where
  | configurationError (msg : String)
  | unsupportedFileFormatError (fmt : String)
  | dataFileNotFoundError (path : String)
  | fileNotFoundError (path : String)
  | parserError (msg : String)

/-- Which exceptions an `except FileNotFoundError` clause catches. -/
def isFileNotFoundKind : PyError → Bool
  | PyError.dataFileNotFoundError _ => true
  | PyError.fileNotFoundError _ => true
  | _ => false

/-- `load_config` (src/yuusim/io/config.py, lines 126-168): check the file
format, then — before opening anything — raise `ConfigurationError` (message
`Configuration file not found: ...`) when the path does not exist; otherwise
parse (parser exceptions propagate) and `_validate_config` (lines 106-123)
raises `ConfigurationError` when the top-level `system` key is absent.
`file_format`, `fileExists`, the parse outcome and the `system`-presence test
parameterize the filesystem and the format adapter. -/
def load_config {γ : Type} (file_format : String) (fileExists : Bool)
    (parse : Except String γ) (hasSystem : γ → Bool) : Except PyError γ :=
  if (["toml", "json", "yaml"].contains file_format) = false then
    Except.error (PyError.unsupportedFileFormatError file_format)
  else if fileExists = false then
    Except.error (PyError.configurationError "Configuration file not found")
  else
    match parse with
    | Except.error msg => Except.error (PyError.parserError msg)
    | Except.ok config =>
      if hasSystem config = false then
        Except.error (PyError.configurationError "Configuration must contain the system field.")
      else Except.ok config

/-- `_load_config` (src/yuusim/simulation.py, lines 202-219): re-raise a
`FileNotFoundError`-kind exception from `load_config` as
`DataFileNotFoundError`, and any other exception as `ConfigurationError`. -/
def setup_load_config {γ : Type} (config_path : String) (r : Except PyError γ) :
    Except PyError γ :=
  match r with
  | Except.ok c => Except.ok c
  | Except.error e =>
    if isFileNotFoundKind e = true then
      Except.error (PyError.dataFileNotFoundError config_path)
    else
      Except.error (PyError.configurationError "Error loading configuration file")

/-- C9 (amended: a missing configuration file does *not* surface as the
claimed `DataFileNotFoundError` — `load_config` raises `ConfigurationError`
for a missing path, which `_load_config`'s `except FileNotFoundError` branch
does not catch, so `setup` raises `ConfigurationError` in that case too; the
missing-`system` case raises `ConfigurationError` as claimed).  For every
supported format: a non-existing path makes `setup` fail with
`ConfigurationError`, and an existing file whose decoded configuration lacks
the top-level `system` section makes `setup` fail with `ConfigurationError`;
neither path ever yields `DataFileNotFoundError`. -/
theorem C9_setup_errors {γ : Type} (path file_format : String)
    (parse : Except String γ) (hasSystem : γ → Bool)
    (hfmt : (["toml", "json", "yaml"].contains file_format) = true) :
    (∃ msg, setup_load_config path (load_config file_format false parse hasSystem)
      = Except.error (PyError.configurationError msg)) ∧
    (∀ c, parse = Except.ok c → hasSystem c = false →
      ∃ msg, setup_load_config path (load_config file_format true parse hasSystem)
        = Except.error (PyError.configurationError msg)) ∧
    (∀ p, setup_load_config path (load_config file_format false parse hasSystem)
      ≠ Except.error (PyError.dataFileNotFoundError p)) := by
  have hload : load_config file_format false parse hasSystem
      = Except.error (PyError.configurationError "Configuration file not found") := by
    unfold load_config
    rw [if_neg (by rw [hfmt]; intro hc; cases hc), if_pos rfl]
  refine ⟨⟨"Error loading configuration file", ?_⟩, ?_, ?_⟩
  · rw [hload]
    rfl
  · intro c hparse hsys
    refine ⟨"Error loading configuration file", ?_⟩
    have hload2 : load_config file_format true parse hasSystem
        = Except.error (PyError.configurationError
            "Configuration must contain the system field.") := by
      unfold load_config
      rw [if_neg (by rw [hfmt]; intro hc; cases hc)]
      rw [if_neg (by intro hc; cases hc)]
      rw [hparse]
      show (if hasSystem c = false then
          Except.error (PyError.configurationError
            "Configuration must contain the system field.")
        else Except.ok c) = _
      rw [if_pos hsys]
    rw [hload2]
    rfl
  · intro p
    rw [hload]
    intro hc
    cases hc

/-- Counterexample to C9 as stated: for a well-formed `config.toml` path that
does not exist, `setup` raises `ConfigurationError` (the
`except FileNotFoundError → DataFileNotFoundError` branch is dead code,
because `load_config` raises `ConfigurationError`, not `FileNotFoundError`,
for a missing file), not the claimed `DataFileNotFoundError`. -/
theorem C9_counterexample :
    setup_load_config "config.toml"
        (load_config "toml" false (Except.ok ()) (fun _ => true))
      = Except.error (PyError.configurationError "Error loading configuration file") ∧
    (∀ p, setup_load_config "config.toml"
        (load_config "toml" false (Except.ok ()) (fun _ => true))
      ≠ Except.error (PyError.dataFileNotFoundError p)) := by
  refine ⟨rfl, ?_⟩
  intro p hc
  cases hc

/-- Witness for C9: the amended theorem applied at the `toml` format with a
parser that decodes a configuration lacking `system`. -/
theorem C9_setup_errors_witness :
    ((["toml", "json", "yaml"].contains "toml") = true) ∧
    ((∃ msg, setup_load_config "config.toml"
        (load_config "toml" false (Except.ok ()) (fun _ => false))
      = Except.error (PyError.configurationError msg)) ∧
    (∀ c : Unit, (Except.ok () : Except String Unit) = Except.ok c → false = false →
      ∃ msg, setup_load_config "config.toml"
        (load_config "toml" true (Except.ok ()) (fun _ => false))
        = Except.error (PyError.configurationError msg)) ∧
    (∀ p, setup_load_config "config.toml"
        (load_config "toml" false (Except.ok ()) (fun _ => false))
      ≠ Except.error (PyError.dataFileNotFoundError p))) :=
  ⟨by decide, C9_setup_errors "config.toml" "toml" (Except.ok ()) (fun _ => false) (by decide)⟩

end Yuusim
